import Mathlib

/-!
# thread_manager: worker-thread pool (src/thead_manager.h)

A shallow embedding of the class `thread_manager`.

* The loop partitioner (`get_loops_per_block`, `submit_loop_task`, `push_loop`) is embedded as
  pure functions; `size_t` arithmetic is arithmetic modulo `SIZE_MOD`.
* The synchronisation core (`push_task`, `submit_task`, `worker`, `wait_for_all_tasks_in_que`,
  `kill_threads`) is embedded as a step function on the state `Pool`: one step is one block of
  code executed while `task_mutex` is held (or, for `worker_return`, the execution of a work
  item followed by the block that re-takes the mutex).
* A callable is represented by the outcome of invoking it (`Outcome`); a work item carries the
  arguments bound into it and that outcome.
-/

namespace ThreadManager

/-- Modulus of `size_t` arithmetic (64-bit target). -/
def SIZE_MOD : Nat := 2 ^ 64

/-- Modulus of `unsigned int` arithmetic. -/
def UINT_MOD : Nat := 2 ^ 32

/-! ## Index types of the loop operations -/

/-- Representative instantiations of the template parameters `startIndexType` and
`endIndexType`. -/
inductive IndexType
  | bool_t
  | char_t
  | short_t
  | int_t
  | unsigned_t
  | long_t
  | size_t_t
  | float_t
  | double_t
  | string_t
  deriving DecidableEq, Repr

/-- The trait `std::is_integral_v`. -/
def IndexType.is_integral : IndexType → Bool
  | .bool_t => true
  | .char_t => true
  | .short_t => true
  | .int_t => true
  | .unsigned_t => true
  | .long_t => true
  | .size_t_t => true
  | .float_t => false
  | .double_t => false
  | .string_t => false

/-- The trait `std::is_floating_point_v`. -/
def IndexType.is_floating_point : IndexType → Bool
  | .float_t => true
  | .double_t => true
  | _ => false

/-- Largest length of a `std::vector<size_t>` (`max_size()`): `PTRDIFF_MAX / sizeof(size_t)`
on the 64-bit target, the value of libstdc++. A length above it is refused whatever memory
is available; a length below it for which memory runs out (`std::bad_alloc`) is outside the
embedding, which has no allocator. -/
def VECTOR_MAX_SIZE : Nat := 2 ^ 60 - 1

/-- The exceptions that leave the loop operations: `std::invalid_argument`, raised by the
class itself (lines 310 and 313), and `std::length_error`, raised by the constructor of
`std::vector` (line 316) when the requested length exceeds `max_size()`. -/
inductive Error
  | invalid_argument
  | length_error
  deriving DecidableEq, Repr

/-! ## Callables, result channels, work items -/

/-- An exception object: one derived from `std::exception`, or any other thrown value. -/
inductive Thrown
  | std_exception (e : Nat)
  | other (x : Nat)
  deriving DecidableEq, Repr

/-- What invoking a bound callable does: return a value, return nothing (`void`), or throw. -/
inductive Outcome
  | value (v : Nat)
  | no_value
  | throws (t : Thrown)
  deriving DecidableEq, Repr

/-- State of a `std::promise`: not yet set, set to a value, set without a value (`void`),
or set to an exception. -/
inductive Channel
  | empty
  | value (v : Nat)
  | no_value
  | exception (t : Thrown)
  deriving DecidableEq, Repr

/-- Code of the `std::future_error` a promise raises when it is set a second time. -/
def FUTURE_ERROR : Nat := 0

/-- One call of `set_value` or `set_exception` on a promise in state `ch`: an empty promise
takes the new state; a promise that is already set raises `std::future_error`, which derives
from `std::exception`. -/
def promise_set (ch new : Channel) : Channel × Option Thrown :=
  match ch with
  | .empty => (new, none)
  | _ => (ch, some (.std_exception FUTURE_ERROR))

/-- The lambda `current_task` built by `submit_task` (lines 56-70), run on a promise in state
`ch`; `body` is the outcome of `std::invoke(task)`. The result is the promise afterwards and
the exception that leaves the lambda, if any. -/
def current_task (body : Outcome) (ch : Channel) : Channel × Option Thrown :=
  -- the outer try block, lines 58-61
  let tried : Channel × Option Thrown :=
    match body with
    | .value v => promise_set ch (.value v)
    | .no_value => promise_set ch .no_value
    | .throws t => (ch, some t)
  match tried with
  | (ch1, none) => (ch1, none)
  | (ch1, some (.std_exception e)) =>
    -- catch (const std::exception&), lines 62-69: set_exception inside a nested try whose
    -- handler swallows a std::exception
    match promise_set ch1 (.exception (.std_exception e)) with
    | (ch2, none) => (ch2, none)
    | (ch2, some (.std_exception _)) => (ch2, none)
    | (ch2, some (.other x)) => (ch2, some (.other x))
  | (ch1, some (.other x)) => (ch1, some (.other x))

/-- An element of `que`: a `std::function<void()>`. `id` numbers the work items in the order
they were enqueued; `wrapped` tells the lambda of `submit_task` (which owns the promise of the
same number) from a callable bound directly by `push_task`; `args` are the leading arguments
bound into it; `body` is what invoking the bound callable does. -/
structure WorkItem where
  id : Nat
  wrapped : Bool
  args : List Nat
  body : Outcome
  deriving DecidableEq, Repr

/-- Control point of one thread of `threads` inside `worker` (lines 275-296):
`Ready` at the head of the loop (line 276, mutex not held), `Idle` blocked in
`task_available_cv.wait` (line 281), `Running` while executing `task()` (line 289, mutex
released), `Exiting` after the `break` of line 283. -/
inductive WorkerState
  | Ready
  | Idle
  | Running (item : WorkItem)
  | Exiting
  deriving DecidableEq, Repr

/-! ## The pool -/

/-- The data members of `thread_manager` that the operations read or write, followed by
bookkeeping that the class does not store: `created` (work items enqueued so far), `finished`
(ids of the work items whose execution has ended), `channels` (entry `id` is the promise made
by `submit_task` for work item `id`, or `none` for an item enqueued by `push_task`),
`drain_waiters` (callers blocked inside `wait_for_all_tasks_in_que`), the number of
notifications raised on each condition variable, and `terminated` (an exception left
`worker`, so `std::terminate` ended the process). -/
structure Pool where
  numberOfThreads_ui : Nat
  threads : List WorkerState
  que : List WorkItem
  thread_is_waiting_at_cv_b : Bool
  worker_working_b : Bool
  waiting_to_finish_all_tasks_b : Bool
  number_of_tasks_running_t : Nat
  created : Nat
  finished : List Nat
  channels : List (Option Channel)
  drain_waiters : Nat
  task_available_notified : Nat
  tasks_complete_notified : Nat
  terminated : Bool
  deriving DecidableEq, Repr

/-- State of the promise of work item `id` (empty when there is none). -/
def Pool.promise (p : Pool) (id : Nat) : Channel :=
  match p.channels.getD id none with
  | some ch => ch
  | none => .empty

/-- The pool as the constructor leaves it (lines 33-36 and `create_threads`, lines 266-273):
`numberOfThreads_ui` threads at the head of `worker`, `worker_working_b` set, everything else
as the member initialisers give it. `N` is the value `determine_max_hardware_threads`
returns, an `unsigned int`. -/
def init (N : Nat) : Pool :=
  { numberOfThreads_ui := N % UINT_MOD
    threads := List.replicate (N % UINT_MOD) WorkerState.Ready
    que := []
    thread_is_waiting_at_cv_b := false
    worker_working_b := true
    waiting_to_finish_all_tasks_b := false
    number_of_tasks_running_t := 0
    created := 0
    finished := []
    channels := []
    drain_waiters := 0
    task_available_notified := 0
    tasks_complete_notified := 0
    terminated := false }

/-! ## Submission -/

/-- The method `push_task` (lines 84-105) for a callable that is the `submit_task` lambda
(`wrapped`) or a directly bound one. The embedding has no allocator, so the try block (lines
88-93) completes on the first pass of the retry loop and the two handlers are not entered:
the item is appended to `que` under the mutex, then `task_available_cv` is notified when
`thread_is_waiting_at_cv_b` is set. There is no test of `worker_working_b`. The bookkeeping
list `channels` gets the entry of the new item: for a `submit_task` lambda the fresh promise
of line 55, which the lambda owns. -/
def push_task (p : Pool) (wrapped : Bool) (args : List Nat) (body : Outcome) : Pool :=
  let item : WorkItem := { id := p.created, wrapped := wrapped, args := args, body := body }
  let p1 : Pool :=
    { p with
      que := p.que ++ [item]
      created := p.created + 1
      channels := p.channels ++ [if wrapped then some Channel.empty else none] }
  if p1.thread_is_waiting_at_cv_b then
    { p1 with task_available_notified := p1.task_available_notified + 1 }
  else p1

/-- The method `submit_task` (lines 53-74): a fresh promise, the lambda `current_task` pushed
with `push_task`, and the future of the promise returned (here: the number of the promise). -/
def submit_task (p : Pool) (args : List Nat) (body : Outcome) : Nat × Pool :=
  (p.created, push_task p true args body)

/-! ## Loop partitioner -/

/-- The statement `loops_per_block[k]++` on a vector of `size_t`. -/
def incr_at (l : List Nat) (k : Nat) : List Nat :=
  l.set k ((l.getD k 0 + 1) % SIZE_MOD)

/-- The erase loop of lines 322-325: every zero entry is removed, the order is kept. -/
def erase_zeros : List Nat → List Nat
  | [] => []
  | x :: rest => if x = 0 then erase_zeros rest else x :: erase_zeros rest

/-- The method `get_loops_per_block` (lines 308-327): the two validation tests as written
(the test for `std::string` included), the construction of a vector of `num_blocks` zeros
(line 316), which raises `std::length_error` when `num_blocks` exceeds `max_size()`, the
counting loop, and the erase loop. The index values are integers; `static_cast<size_t>`
reduces the length of the range modulo `SIZE_MOD`. -/
def get_loops_per_block (S E : IndexType) (startIndex endIndex : Int) (num_blocks : Nat) :
    Except Error (List Nat) :=
  if S ≠ E ∨ S.is_integral = false ∨ S.is_floating_point = true ∨ S = IndexType.string_t then
    Except.error Error.invalid_argument
  else if startIndex < 0 ∨ endIndex < startIndex ∨ num_blocks < 1 then
    Except.error Error.invalid_argument
  else if VECTOR_MAX_SIZE < num_blocks then
    Except.error Error.length_error
  else
    let n : Nat := Int.toNat ((endIndex - startIndex) % (SIZE_MOD : Int))
    let loops_per_block : List Nat :=
      (List.range n).foldl (fun l i => incr_at l (i % num_blocks)) (List.replicate num_blocks 0)
    Except.ok (erase_zeros loops_per_block)

/-- The for loop of `submit_loop_task` (lines 136-141) from iteration `i` on, over the
entries of `loops_per_block` not yet visited; `currentEndIndex` is the variable of that name,
`futures` the vector `future_vector`. `func s e` is the outcome of the callable on the block
from `s` to `e`. -/
def submit_loop_from (func : Nat → Nat → Outcome) (startIndex : Int) :
    List Nat → Nat → Nat → Pool → List Nat → List Nat × Pool
  | [], _, _, p, futures => (futures, p)
  | n :: rest, i, currentEndIndex, p, futures =>
    let currentStartIndex : Nat :=
      if i = 0 then Int.toNat ((startIndex + (currentEndIndex : Int)) % (SIZE_MOD : Int))
      else currentEndIndex
    let currentEndIndex1 : Nat := (currentStartIndex + n) % SIZE_MOD
    let r := submit_task p [currentStartIndex, currentEndIndex1]
      (func currentStartIndex currentEndIndex1)
    submit_loop_from func startIndex rest (i + 1) currentEndIndex1 r.2 (futures ++ [r.1])

/-- The for loop of `push_loop` (lines 166-171) from iteration `i` on. -/
def push_loop_from (func : Nat → Nat → Outcome) (startIndex : Int) :
    List Nat → Nat → Nat → Pool → Pool
  | [], _, _, p => p
  | n :: rest, i, currentEndIndex, p =>
    let currentStartIndex : Nat :=
      if i = 0 then Int.toNat ((startIndex + (currentEndIndex : Int)) % (SIZE_MOD : Int))
      else currentEndIndex
    let currentEndIndex1 : Nat := (currentStartIndex + n) % SIZE_MOD
    push_loop_from func startIndex rest (i + 1) currentEndIndex1
      (push_task p false [currentStartIndex, currentEndIndex1]
        (func currentStartIndex currentEndIndex1))

/-- The block count after line 132 (and 163): the caller's value, or the thread count when
the caller passes 0. -/
def effective_blocks (p : Pool) (num_blocks : Nat) : Nat :=
  if num_blocks > 0 then num_blocks else p.numberOfThreads_ui

/-- The method `submit_loop_task` (lines 130-143): the exception raised or the vector of
futures returned, and the pool afterwards. -/
def submit_loop_task (p : Pool) (S E : IndexType) (startIndex endIndex : Int)
    (num_blocks : Nat) (func : Nat → Nat → Outcome) : Except Error (List Nat) × Pool :=
  match get_loops_per_block S E startIndex endIndex (effective_blocks p num_blocks) with
  | Except.error e => (Except.error e, p)
  | Except.ok loops_per_block =>
    let r := submit_loop_from func startIndex loops_per_block 0 0 p []
    (Except.ok r.1, r.2)

/-- The method `push_loop` (lines 162-172): the exception raised, if any, and the pool
afterwards. -/
def push_loop (p : Pool) (S E : IndexType) (startIndex endIndex : Int)
    (num_blocks : Nat) (func : Nat → Nat → Outcome) : Except Error Unit × Pool :=
  match get_loops_per_block S E startIndex endIndex (effective_blocks p num_blocks) with
  | Except.error e => (Except.error e, p)
  | Except.ok loops_per_block =>
    (Except.ok (), push_loop_from func startIndex loops_per_block 0 0 p)

/-! ## Worker loop -/

/-- The predicate of `task_available_cv.wait` (line 281). -/
def worker_wait_pred (p : Pool) : Bool :=
  !p.que.isEmpty || !p.worker_working_b

/-- What a worker does once it holds the mutex at line 281. -/
inductive Wake
  | stay
  | exit
  | run (item : WorkItem)
  deriving DecidableEq, Repr

/-- Lines 281-287 of `worker`, executed with the mutex held: the wait predicate, the test of
`worker_working_b`, then the dequeue of the front item and the increment of
`number_of_tasks_running_t`. When the predicate is false the thread keeps waiting and the
state is as it was. The empty-queue case of the last branch is never taken (the predicate
holds and `worker_working_b` is set there, so the queue is non-empty). -/
def worker_wake (p : Pool) : Wake × Pool :=
  if worker_wait_pred p = false then (Wake.stay, p)
  else if p.worker_working_b = false then (Wake.exit, p)
  else
    match p.que with
    | [] => (Wake.stay, p)
    | task :: rest =>
      (Wake.run task,
        { p with
          que := rest
          number_of_tasks_running_t := (p.number_of_tasks_running_t + 1) % SIZE_MOD })

/-- Control point a worker reaches after `worker_wake`. -/
def Wake.state : Wake → WorkerState
  | .stay => WorkerState.Idle
  | .exit => WorkerState.Exiting
  | .run item => WorkerState.Running item

/-- The call `task()` of line 289, made with the mutex released: a `submit_task` lambda runs
`current_task` on its promise; a directly bound callable is invoked as it is, so whatever it
throws leaves the call. -/
def run_task (p : Pool) (item : WorkItem) : Pool × Option Thrown :=
  if item.wrapped then
    let r := current_task item.body (p.promise item.id)
    ({ p with channels := p.channels.set item.id (some r.1) }, r.2)
  else
    match item.body with
    | .throws t => (p, some t)
    | _ => (p, none)

/-- Lines 290-293 of `worker`, executed with the mutex held after `task()` has returned: the
decrement of `number_of_tasks_running_t` and the notification of `tasks_complete_cv`. -/
def worker_finish (p : Pool) : Pool :=
  let p1 : Pool :=
    { p with number_of_tasks_running_t := (p.number_of_tasks_running_t + SIZE_MOD - 1) % SIZE_MOD }
  if p1.waiting_to_finish_all_tasks_b && (p1.number_of_tasks_running_t == 0) && p1.que.isEmpty then
    { p1 with tasks_complete_notified := p1.tasks_complete_notified + 1 }
  else p1

/-! ## Drain and shutdown -/

/-- The predicate of `tasks_complete_cv.wait` (line 183). -/
def drain_pred (p : Pool) : Bool :=
  (p.number_of_tasks_running_t == 0) && p.que.isEmpty

/-- Lines 181-184 of `wait_for_all_tasks_in_que` up to the first evaluation of the wait
predicate: the flag is set; when the predicate holds the call clears the flag and returns,
otherwise the caller blocks. -/
def drain_enter (p : Pool) : Pool :=
  let p1 : Pool := { p with waiting_to_finish_all_tasks_b := true }
  if drain_pred p1 then { p1 with waiting_to_finish_all_tasks_b := false }
  else { p1 with drain_waiters := p1.drain_waiters + 1 }

/-- A caller blocked at line 183 re-takes the mutex and evaluates the predicate again: when
it holds the call clears the flag (line 184) and returns, otherwise the caller stays
blocked. -/
def drain_wake (p : Pool) : Pool :=
  if drain_pred p then
    { p with waiting_to_finish_all_tasks_b := false, drain_waiters := p.drain_waiters - 1 }
  else p

/-- Lines 193-197 of `kill_threads`: the flag is cleared under the mutex and every worker is
notified. The joins of lines 198-200 wait for the workers and change nothing. -/
def kill_threads (p : Pool) : Pool :=
  { p with worker_working_b := false, task_available_notified := p.task_available_notified + 1 }

/-- Shutdown has completed: the flag is cleared and every thread has left `worker`, which is
what the joins of `kill_threads` wait for. -/
def shutdown_complete (p : Pool) : Prop :=
  p.worker_working_b = false ∧ ∀ t ∈ p.threads, t = WorkerState.Exiting

/-! ## Step function -/

/-- The atomic steps of the pool. -/
inductive Action
  | submit (args : List Nat) (body : Outcome)
  | push (args : List Nat) (body : Outcome)
  | worker_enter (w : Nat)
  | worker_wake (w : Nat)
  | worker_return (w : Nat)
  | drain_enter
  | drain_wake
  | kill
  deriving DecidableEq, Repr

/-- One atomic step; `none` when the step is not enabled. No step is enabled once the process
has terminated.
* `submit`, `push`: a call of `submit_task` or `push_task` by any thread.
* `worker_enter w`: thread `w`, at the head of the loop, takes the mutex, sets
  `thread_is_waiting_at_cv_b` (line 279) and goes through lines 281-287.
* `worker_wake w`: thread `w`, blocked in the wait, re-takes the mutex (notified or
  spuriously) and goes through lines 281-287.
* `worker_return w`: the work item of thread `w` ends. If an exception leaves it, it leaves
  `worker` too and the process terminates; otherwise lines 290-293 run and the thread is back
  at the head of the loop.
* `drain_enter`, `drain_wake`: see `drain_enter` and `drain_wake`; the latter needs a blocked
  caller.
* `kill`: see `kill_threads`. -/
def step (p : Pool) (a : Action) : Option Pool :=
  if p.terminated then none
  else
    match a with
    | .submit args body => some (submit_task p args body).2
    | .push args body => some (push_task p false args body)
    | .worker_enter w =>
      match p.threads[w]? with
      | some WorkerState.Ready =>
        let r := worker_wake { p with thread_is_waiting_at_cv_b := true }
        some { r.2 with threads := r.2.threads.set w r.1.state }
      | _ => none
    | .worker_wake w =>
      match p.threads[w]? with
      | some WorkerState.Idle =>
        let r := worker_wake p
        some { r.2 with threads := r.2.threads.set w r.1.state }
      | _ => none
    | .worker_return w =>
      match p.threads[w]? with
      | some (WorkerState.Running item) =>
        match run_task p item with
        | (p1, some _) => some { p1 with terminated := true }
        | (p1, none) =>
          let p2 := worker_finish p1
          some { p2 with
            threads := p2.threads.set w WorkerState.Ready
            finished := p2.finished ++ [item.id] }
      | _ => none
    | .drain_enter => some (drain_enter p)
    | .drain_wake => if p.drain_waiters = 0 then none else some (drain_wake p)
    | .kill => some (kill_threads p)

/-- A sequence of steps. -/
def run : Pool → List Action → Option Pool
  | p, [] => some p
  | p, a :: rest =>
    match step p a with
    | none => none
    | some p1 => run p1 rest

/-- The pool states reachable from the constructed pool of `N` threads. -/
inductive Reachable (N : Nat) : Pool → Prop
  | start : Reachable N (init N)
  | next {p p1 : Pool} (a : Action) : Reachable N p → step p a = some p1 → Reachable N p1

/-- The pool states reachable from `p`. -/
inductive Steps (p : Pool) : Pool → Prop
  | refl : Steps p p
  | next {p1 p2 : Pool} (a : Action) : Steps p p1 → step p1 a = some p2 → Steps p p2

/-- Ids of the work items that the threads are executing. -/
def running_ids : List WorkerState → List Nat
  | [] => []
  | WorkerState.Running item :: rest => item.id :: running_ids rest
  | _ :: rest => running_ids rest

/-! ## Specification-side definitions of the loop partitioner

These three definitions are written from the specification of the partitioner, not from the
code; the theorems compare the code with them. -/

/-- Block sizes as the specification gives them, for a range of length `n` and block count
`B`: `min B n` blocks, block `i` of size `n / B + 1` when `i < n % B` and `n / B`
otherwise. -/
def spec_block_sizes (B n : Nat) : List Nat :=
  (List.range (min B n)).map (fun i => if i < n % B then n / B + 1 else n / B)

/-- Consecutive half-open blocks that start at `s` and have the given sizes. -/
def spec_blocks : Nat → List Nat → List (Nat × Nat)
  | _, [] => []
  | s, n :: rest => (s, s + n) :: spec_blocks (s + n) rest

/-- Work items of the given blocks, numbered from `id` on: item `k` binds the bounds of
block `k` and runs `func` on them. -/
def spec_items (wrapped : Bool) (func : Nat → Nat → Outcome) : Nat → List (Nat × Nat) → List WorkItem
  | _, [] => []
  | id, b :: rest =>
    { id := id, wrapped := wrapped, args := [b.1, b.2], body := func b.1 b.2 }
      :: spec_items wrapped func (id + 1) rest

/-! ## Invariant of the reachable states -/

/-- Invariant of the pool: the thread count fits an `unsigned int`; the in-flight counter is
the number of threads that are executing a work item; every work item created is, exactly
once, in the queue, held by a thread, or finished; and a promise that has been set belongs to
a finished work item. -/
def Inv (p : Pool) : Prop :=
  p.threads.length < UINT_MOD ∧
  p.number_of_tasks_running_t = (running_ids p.threads).length ∧
  p.created = p.que.length + p.number_of_tasks_running_t + p.finished.length ∧
  (∀ id, (p.que.map (fun item => item.id)).count id + (running_ids p.threads).count id
      + p.finished.count id = if id < p.created then 1 else 0) ∧
  (∀ id, p.promise id ≠ Channel.empty → id ∈ p.finished)

/-! ## Example states -/

/-- A pool of two threads after two work items have been enqueued, a caller has blocked in
drain, and both items have been run. -/
def example_drained : Pool :=
  { numberOfThreads_ui := 2
    threads := [WorkerState.Ready, WorkerState.Ready]
    que := []
    thread_is_waiting_at_cv_b := true
    worker_working_b := true
    waiting_to_finish_all_tasks_b := true
    number_of_tasks_running_t := 0
    created := 2
    finished := [1, 0]
    channels := [none, some (Channel.value 5)]
    drain_waiters := 1
    task_available_notified := 0
    tasks_complete_notified := 1
    terminated := false }

/-- A pool of two threads at the moment `kill_threads` has cleared the flag: item 0 is in
flight on thread 0, item 1 (made by `submit_task`) is still queued. -/
def example_killed : Pool :=
  { numberOfThreads_ui := 2
    threads := [WorkerState.Running
      { id := 0, wrapped := false, args := [], body := Outcome.no_value }, WorkerState.Ready]
    que := [{ id := 1, wrapped := true, args := [], body := Outcome.value 5 }]
    thread_is_waiting_at_cv_b := true
    worker_working_b := false
    waiting_to_finish_all_tasks_b := false
    number_of_tasks_running_t := 1
    created := 2
    finished := []
    channels := [none, some Channel.empty]
    drain_waiters := 0
    task_available_notified := 1
    tasks_complete_notified := 0
    terminated := false }

/-- The pool `example_killed` once both threads have left `worker` and one more item has been
pushed: shutdown has completed. -/
def example_shut_down : Pool :=
  { numberOfThreads_ui := 2
    threads := [WorkerState.Exiting, WorkerState.Exiting]
    que := [{ id := 1, wrapped := true, args := [], body := Outcome.value 5 },
      { id := 2, wrapped := false, args := [], body := Outcome.no_value }]
    thread_is_waiting_at_cv_b := true
    worker_working_b := false
    waiting_to_finish_all_tasks_b := false
    number_of_tasks_running_t := 0
    created := 3
    finished := [0]
    channels := [none, some Channel.empty, none]
    drain_waiters := 0
    task_available_notified := 2
    tasks_complete_notified := 0
    terminated := false }

/-- Steps that lead from the constructed pool of two threads to `example_drained`. -/
def example_drained_trace : List Action :=
  [Action.push [] Outcome.no_value, Action.submit [] (Outcome.value 5), Action.drain_enter,
    Action.worker_enter 0, Action.worker_enter 1, Action.worker_return 1,
    Action.worker_return 0]

/-- Steps that lead from the constructed pool of two threads to `example_killed`. -/
def example_killed_trace : List Action :=
  [Action.push [] Outcome.no_value, Action.submit [] (Outcome.value 5), Action.worker_enter 0,
    Action.kill]

/-- Steps that lead from `example_killed` to `example_shut_down`. -/
def example_shut_down_trace : List Action :=
  [Action.worker_enter 1, Action.worker_return 0, Action.push [] Outcome.no_value,
    Action.worker_enter 0]

/-! ## Loop partitioner: the block sizes -/

theorem succ_div_mod (B n : Nat) (hB : 0 < B) :
    (n % B + 1 < B ∧ (n + 1) / B = n / B ∧ (n + 1) % B = n % B + 1) ∨
    (n % B + 1 = B ∧ (n + 1) / B = n / B + 1 ∧ (n + 1) % B = 0) := by
  have hlt : n % B < B := Nat.mod_lt n hB
  have hdm : B * (n / B) + n % B = n := Nat.div_add_mod n B
  rcases Nat.lt_or_ge (n % B + 1) B with h | h
  · left
    refine ⟨h, ?_⟩
    apply (Nat.div_mod_unique hB).2
    constructor
    · omega
    · exact h
  · right
    have hB1 : n % B + 1 = B := by omega
    refine ⟨hB1, ?_⟩
    apply (Nat.div_mod_unique hB).2
    constructor
    · rw [Nat.mul_succ]
      omega
    · exact hB

/-- Block sizes before the zero entries are erased: entry `j` of the vector after `n`
iterations of the counting loop. -/
theorem counting_loop_spec (B n : Nat) (hB : 0 < B) (hn : n < SIZE_MOD) :
    (List.range n).foldl (fun l i => incr_at l (i % B)) (List.replicate B 0)
      = (List.range B).map (fun j => n / B + if j < n % B then 1 else 0) := by
  induction n with
  | zero =>
    apply List.ext_getElem?
    intro j
    by_cases hj : j < B
    · simp [List.getElem?_replicate, List.getElem?_range, hj]
    · simp [List.getElem?_replicate, hj]
  | succ n ih =>
    have hn1 : n < SIZE_MOD := by omega
    rw [List.range_succ, List.foldl_append, ih hn1]
    simp only [List.foldl_cons, List.foldl_nil]
    have hk : n % B < B := Nat.mod_lt n hB
    have hq : n / B ≤ n := Nat.div_le_self n B
    apply List.ext_getElem?
    intro j
    unfold incr_at
    rw [List.getD_eq_getElem?_getD, List.getElem?_set]
    by_cases hj : j < B
    · have hmod : (n / B + 1) % SIZE_MOD = n / B + 1 := Nat.mod_eq_of_lt (by omega)
      rcases succ_div_mod B n hB with ⟨h1, h2, h3⟩ | ⟨h1, h2, h3⟩
      · by_cases hjk : n % B = j
        · subst hjk
          simp [List.getElem?_range, hk, h2, h3, hmod]
        · simp [List.getElem?_range, hj, hjk, h2, h3]
          by_cases hlt : j < n % B
          · have : j < n % B + 1 := by omega
            simp [hlt, this]
          · have : ¬ j < n % B + 1 := by omega
            simp [hlt, this]
      · by_cases hjk : n % B = j
        · subst hjk
          simp [List.getElem?_range, hk, h2, h3, hmod]
        · simp [List.getElem?_range, hj, hjk, h2, h3]
          have : j < n % B := by omega
          simp [this]
    · have hjk : n % B ≠ j := by omega
      have hnone : (List.range B)[j]? = none := List.getElem?_eq_none (by simp; omega)
      simp [hjk, hnone]

theorem erase_zeros_eq_filter (l : List Nat) : erase_zeros l = l.filter (fun x => x ≠ 0) := by
  induction l with
  | nil => rfl
  | cons x rest ih =>
    by_cases hx : x = 0
    · simp [erase_zeros, hx, ih]
    · simp [erase_zeros, hx, ih]

theorem erase_zeros_append (l1 l2 : List Nat) :
    erase_zeros (l1 ++ l2) = erase_zeros l1 ++ erase_zeros l2 := by
  simp [erase_zeros_eq_filter]

theorem erase_zeros_pos (l : List Nat) (h : ∀ x ∈ l, 0 < x) : erase_zeros l = l := by
  rw [erase_zeros_eq_filter, List.filter_eq_self]
  intro x hx
  have := h x hx
  simp
  omega

theorem erase_zeros_all_pos (l : List Nat) : ∀ x ∈ erase_zeros l, 0 < x := by
  intro x hx
  rw [erase_zeros_eq_filter] at hx
  have := (List.mem_filter.1 hx).2
  simp at this
  omega

theorem erase_zeros_sum (l : List Nat) : (erase_zeros l).sum = l.sum := by
  induction l with
  | nil => rfl
  | cons x rest ih =>
    by_cases hx : x = 0
    · simp [erase_zeros, hx, ih]
    · simp [erase_zeros, hx, ih]

theorem erase_zeros_short (B r : Nat) :
    erase_zeros ((List.range B).map (fun j => if j < r then 1 else 0))
      = (List.range (min B r)).map (fun _ => 1) := by
  induction B with
  | zero => simp [erase_zeros]
  | succ B ih =>
    rw [List.range_succ, List.map_append, erase_zeros_append, ih]
    by_cases h : B < r
    · have h1 : min (B + 1) r = B + 1 := by omega
      have h2 : min B r = B := by omega
      rw [h1, h2, List.range_succ, List.map_append]
      simp [erase_zeros, h]
    · have h1 : min (B + 1) r = min B r := by omega
      rw [h1]
      simp [erase_zeros, h]

theorem erase_zeros_counting (B n : Nat) (hB : 0 < B) :
    erase_zeros ((List.range B).map (fun j => n / B + if j < n % B then 1 else 0))
      = spec_block_sizes B n := by
  unfold spec_block_sizes
  rcases Nat.lt_or_ge n B with h | h
  · have hq : n / B = 0 := Nat.div_eq_of_lt h
    have hr : n % B = n := Nat.mod_eq_of_lt h
    have hmin : min B n = n := by omega
    rw [hq, hr, hmin]
    have := erase_zeros_short B n
    simp only [Nat.zero_add] at this ⊢
    rw [this, hmin]
    apply List.map_congr_left
    intro i hi
    have : i < n := List.mem_range.1 hi
    simp [this]
  · have hq : 0 < n / B := Nat.div_pos h hB
    have hmin : min B n = B := by omega
    rw [hmin, erase_zeros_pos]
    · apply List.map_congr_left
      intro i _
      by_cases hi : i < n % B
      · simp [hi]
      · simp [hi]
    · intro x hx
      rcases List.mem_map.1 hx with ⟨j, _, rfl⟩
      omega

theorem get_loops_per_block_ok (S : IndexType) (startIndex endIndex : Int) (B : Nat)
    (hS : S.is_integral = true) (h0 : 0 ≤ startIndex) (hle : startIndex ≤ endIndex)
    (hmax : endIndex < (SIZE_MOD : Int)) (hB : 1 ≤ B) (hB2 : B ≤ VECTOR_MAX_SIZE) :
    get_loops_per_block S S startIndex endIndex B
      = Except.ok (spec_block_sizes B (Int.toNat (endIndex - startIndex))) := by
  have hfl : S.is_floating_point = false := by cases S <;> simp_all [IndexType.is_integral, IndexType.is_floating_point]
  have hstr : S ≠ IndexType.string_t := by
    intro h
    rw [h] at hS
    simp [IndexType.is_integral] at hS
  have hmod : (endIndex - startIndex) % (SIZE_MOD : Int) = endIndex - startIndex :=
    Int.emod_eq_of_lt (by omega) (by omega)
  have hn : Int.toNat (endIndex - startIndex) < SIZE_MOD := by omega
  unfold get_loops_per_block
  rw [if_neg (by simp [hS, hfl, hstr]), if_neg (by omega), if_neg (by omega)]
  simp only [hmod]
  rw [counting_loop_spec B _ (by omega) hn, erase_zeros_counting B _ (by omega)]

theorem get_loops_per_block_too_many (S : IndexType) (startIndex endIndex : Int) (B : Nat)
    (hS : S.is_integral = true) (h0 : 0 ≤ startIndex) (hle : startIndex ≤ endIndex)
    (hB : VECTOR_MAX_SIZE < B) :
    get_loops_per_block S S startIndex endIndex B = Except.error Error.length_error := by
  have hfl : S.is_floating_point = false := by
    cases S <;> simp_all [IndexType.is_integral, IndexType.is_floating_point]
  have hstr : S ≠ IndexType.string_t := by
    intro h
    rw [h] at hS
    simp [IndexType.is_integral] at hS
  unfold get_loops_per_block
  rw [if_neg (by simp [hS, hfl, hstr]), if_neg (by omega), if_pos hB]

theorem sum_counting (q r m : Nat) :
    ((List.range m).map (fun j => q + if j < r then 1 else 0)).sum = m * q + min m r := by
  induction m with
  | zero => simp
  | succ m ih =>
    rw [List.range_succ, List.map_append, List.sum_append, ih]
    by_cases h : m < r
    · simp [h, Nat.succ_mul]
      omega
    · simp [h, Nat.succ_mul]
      omega

theorem spec_block_sizes_sum (B n : Nat) (hB : 0 < B) : (spec_block_sizes B n).sum = n := by
  rw [← erase_zeros_counting B n hB, erase_zeros_sum, sum_counting]
  have h1 : n % B < B := Nat.mod_lt n hB
  have h2 : B * (n / B) + n % B = n := Nat.div_add_mod n B
  have h3 : min B (n % B) = n % B := by omega
  rw [h3]
  exact h2

theorem spec_block_sizes_pos (B n : Nat) (hB : 0 < B) : ∀ x ∈ spec_block_sizes B n, 0 < x := by
  rw [← erase_zeros_counting B n hB]
  exact erase_zeros_all_pos _

theorem spec_block_sizes_length (B n : Nat) : (spec_block_sizes B n).length = min B n := by
  simp [spec_block_sizes]

/-! ## Loop partitioner: the submitted blocks -/

theorem push_task_que (p : Pool) (w : Bool) (args : List Nat) (body : Outcome) :
    (push_task p w args body).que
      = p.que ++ [{ id := p.created, wrapped := w, args := args, body := body }] := by
  unfold push_task
  dsimp only
  split <;> rfl

theorem push_task_created (p : Pool) (w : Bool) (args : List Nat) (body : Outcome) :
    (push_task p w args body).created = p.created + 1 := by
  unfold push_task
  dsimp only
  split <;> rfl

theorem submit_loop_from_spec (func : Nat → Nat → Outcome) (startIndex : Int)
    (h0 : 0 ≤ startIndex) (sizes : List Nat) :
    ∀ (i cur : Nat) (p : Pool) (futures : List Nat), (i = 0 → cur = 0) →
      (if i = 0 then Int.toNat startIndex else cur) + sizes.sum < SIZE_MOD →
      (submit_loop_from func startIndex sizes i cur p futures).1
          = futures ++ List.range' p.created sizes.length ∧
      (submit_loop_from func startIndex sizes i cur p futures).2.que
          = p.que ++ spec_items true func p.created
              (spec_blocks (if i = 0 then Int.toNat startIndex else cur) sizes) ∧
      (submit_loop_from func startIndex sizes i cur p futures).2.created
          = p.created + sizes.length := by
  induction sizes with
  | nil =>
    intro i cur p futures _ _
    simp [submit_loop_from, spec_blocks, spec_items]
  | cons n rest ih =>
    intro i cur p futures hi hb
    have hcs : (if i = 0 then Int.toNat ((startIndex + (cur : Int)) % (SIZE_MOD : Int)) else cur)
        = (if i = 0 then Int.toNat startIndex else cur) := by
      by_cases h : i = 0
      · have hc := hi h
        subst hc
        simp only [h, if_true] at hb ⊢
        simp only [List.sum_cons] at hb
        have : startIndex % (SIZE_MOD : Int) = startIndex := Int.emod_eq_of_lt h0 (by omega)
        simp [this]
      · simp [h]
    simp only [List.sum_cons] at hb
    have hce : ((if i = 0 then Int.toNat startIndex else cur) + n) % SIZE_MOD
        = (if i = 0 then Int.toNat startIndex else cur) + n := Nat.mod_eq_of_lt (by omega)
    unfold submit_loop_from
    simp only [hcs, hce]
    have hnext := ih (i + 1) ((if i = 0 then Int.toNat startIndex else cur) + n)
      (submit_task p [if i = 0 then Int.toNat startIndex else cur,
          (if i = 0 then Int.toNat startIndex else cur) + n]
        (func (if i = 0 then Int.toNat startIndex else cur)
          ((if i = 0 then Int.toNat startIndex else cur) + n))).2
      (futures ++ [(submit_task p [if i = 0 then Int.toNat startIndex else cur,
          (if i = 0 then Int.toNat startIndex else cur) + n]
        (func (if i = 0 then Int.toNat startIndex else cur)
          ((if i = 0 then Int.toNat startIndex else cur) + n))).1])
      (by omega) (by simp; omega)
    simp only [Nat.add_eq_zero, one_ne_zero, and_false, if_false] at hnext
    obtain ⟨h1, h2, h3⟩ := hnext
    refine ⟨?_, ?_, ?_⟩
    · rw [h1]
      simp [submit_task, push_task_created, List.range'_succ]
    · rw [h2]
      simp [submit_task, push_task_created, push_task_que, spec_blocks, spec_items]
    · rw [h3]
      simp [submit_task, push_task_created]
      omega

theorem push_loop_from_spec (func : Nat → Nat → Outcome) (startIndex : Int)
    (h0 : 0 ≤ startIndex) (sizes : List Nat) :
    ∀ (i cur : Nat) (p : Pool), (i = 0 → cur = 0) →
      (if i = 0 then Int.toNat startIndex else cur) + sizes.sum < SIZE_MOD →
      (push_loop_from func startIndex sizes i cur p).que
          = p.que ++ spec_items false func p.created
              (spec_blocks (if i = 0 then Int.toNat startIndex else cur) sizes) ∧
      (push_loop_from func startIndex sizes i cur p).created = p.created + sizes.length := by
  induction sizes with
  | nil =>
    intro i cur p _ _
    simp [push_loop_from, spec_blocks, spec_items]
  | cons n rest ih =>
    intro i cur p hi hb
    have hcs : (if i = 0 then Int.toNat ((startIndex + (cur : Int)) % (SIZE_MOD : Int)) else cur)
        = (if i = 0 then Int.toNat startIndex else cur) := by
      by_cases h : i = 0
      · have hc := hi h
        subst hc
        simp only [h, if_true] at hb ⊢
        simp only [List.sum_cons] at hb
        have : startIndex % (SIZE_MOD : Int) = startIndex := Int.emod_eq_of_lt h0 (by omega)
        simp [this]
      · simp [h]
    simp only [List.sum_cons] at hb
    have hce : ((if i = 0 then Int.toNat startIndex else cur) + n) % SIZE_MOD
        = (if i = 0 then Int.toNat startIndex else cur) + n := Nat.mod_eq_of_lt (by omega)
    unfold push_loop_from
    simp only [hcs, hce]
    have hnext := ih (i + 1) ((if i = 0 then Int.toNat startIndex else cur) + n)
      (push_task p false [if i = 0 then Int.toNat startIndex else cur,
          (if i = 0 then Int.toNat startIndex else cur) + n]
        (func (if i = 0 then Int.toNat startIndex else cur)
          ((if i = 0 then Int.toNat startIndex else cur) + n)))
      (by omega) (by simp; omega)
    simp only [Nat.add_eq_zero, one_ne_zero, and_false, if_false] at hnext
    obtain ⟨h2, h3⟩ := hnext
    refine ⟨?_, ?_⟩
    · rw [h2]
      simp [push_task_created, push_task_que, spec_blocks, spec_items]
    · rw [h3]
      simp [push_task_created]
      omega

theorem spec_blocks_bounds (sizes : List Nat) :
    ∀ (s : Nat), ∀ b ∈ spec_blocks s sizes, s ≤ b.1 ∧ b.2 ≤ s + sizes.sum := by
  induction sizes with
  | nil => intro s b hb; simp [spec_blocks] at hb
  | cons n rest ih =>
    intro s b hb
    simp only [spec_blocks, List.mem_cons] at hb
    simp only [List.sum_cons]
    rcases hb with rfl | hb
    · simp
    · have := ih (s + n) b hb
      omega

theorem spec_blocks_nonempty (sizes : List Nat) (hpos : ∀ n ∈ sizes, 0 < n) :
    ∀ (s : Nat), ∀ b ∈ spec_blocks s sizes, b.1 < b.2 := by
  induction sizes with
  | nil => intro s b hb; simp [spec_blocks] at hb
  | cons n rest ih =>
    intro s b hb
    simp only [spec_blocks, List.mem_cons] at hb
    rcases hb with rfl | hb
    · have := hpos n (List.mem_cons_self _ _)
      simp
      omega
    · exact ih (fun m hm => hpos m (List.mem_cons_of_mem _ hm)) (s + n) b hb

theorem spec_blocks_head (sizes : List Nat) (s : Nat) :
    ∀ b, (spec_blocks s sizes).head? = some b → b.1 = s := by
  intro b hb
  cases sizes with
  | nil => simp [spec_blocks] at hb
  | cons n rest =>
    simp [spec_blocks] at hb
    rw [← hb]

theorem spec_blocks_chain (sizes : List Nat) :
    ∀ (s : Nat), List.Chain' (fun a b : Nat × Nat => b.1 = a.2) (spec_blocks s sizes) := by
  induction sizes with
  | nil => intro s; simp [spec_blocks]
  | cons n rest ih =>
    intro s
    simp only [spec_blocks]
    rw [List.chain'_cons']
    refine ⟨?_, ih (s + n)⟩
    intro b hb
    exact spec_blocks_head rest (s + n) b hb

theorem spec_blocks_last (sizes : List Nat) :
    ∀ (s : Nat), sizes ≠ [] →
      ∃ b, (spec_blocks s sizes).getLast? = some b ∧ b.2 = s + sizes.sum := by
  induction sizes with
  | nil => intro s h; exact absurd rfl h
  | cons n rest ih =>
    intro s _
    cases hrest : rest with
    | nil => simp [spec_blocks]
    | cons m rest2 =>
      have hne : rest ≠ [] := by rw [hrest]; simp
      obtain ⟨b, hb1, hb2⟩ := ih (s + n) hne
      rw [hrest] at hb1 hb2
      refine ⟨b, ?_, ?_⟩
      · simp only [spec_blocks] at hb1 ⊢
        rw [List.getLast?_cons_cons]
        exact hb1
      · rw [hb2]
        simp only [List.sum_cons]
        omega

theorem spec_blocks_pairwise (sizes : List Nat) :
    ∀ (s : Nat), List.Pairwise (fun a b : Nat × Nat => a.2 ≤ b.1) (spec_blocks s sizes) := by
  induction sizes with
  | nil => intro s; simp [spec_blocks]
  | cons n rest ih =>
    intro s
    simp only [spec_blocks]
    rw [List.pairwise_cons]
    refine ⟨?_, ih (s + n)⟩
    intro b hb
    exact (spec_blocks_bounds rest (s + n) b hb).1

theorem spec_blocks_cover (sizes : List Nat) :
    ∀ (s x : Nat), (∃ b ∈ spec_blocks s sizes, b.1 ≤ x ∧ x < b.2) ↔ (s ≤ x ∧ x < s + sizes.sum) := by
  induction sizes with
  | nil =>
    intro s x
    simp [spec_blocks]
  | cons n rest ih =>
    intro s x
    simp only [spec_blocks, List.sum_cons, List.exists_mem_cons_iff]
    rw [ih (s + n) x]
    omega

theorem spec_blocks_length (sizes : List Nat) :
    ∀ (s : Nat), (spec_blocks s sizes).length = sizes.length := by
  induction sizes with
  | nil => intro s; rfl
  | cons n rest ih => intro s; simp [spec_blocks, ih]

/-! ## Claims on the loop partitioner -/

/-- C1 (counterexample): the range from 0 to 10 with block count `2^64 - 1`, the largest
`size_t`. The range is valid and `B ≥ 1`, but the vector of line 316 cannot be built:
`get_loops_per_block` raises `std::length_error`, so `submit_loop_task` and `push_loop` leave
through that exception, submit no block and return no handle; the non-empty range is not
covered. -/
theorem loop_blocks_huge_block_count :
    (IndexType.int_t.is_integral = true ∧ (0 : Int) ≤ 0 ∧ (0 : Int) ≤ 10 ∧
      1 ≤ 2 ^ 64 - 1 ∧ 2 ^ 64 - 1 < SIZE_MOD) ∧
    submit_loop_task (init 4) IndexType.int_t IndexType.int_t 0 10 (2 ^ 64 - 1)
        (fun _ _ => Outcome.no_value)
      = (Except.error Error.length_error, init 4) ∧
    push_loop (init 4) IndexType.int_t IndexType.int_t 0 10 (2 ^ 64 - 1)
        (fun _ _ => Outcome.no_value)
      = (Except.error Error.length_error, init 4) ∧
    (submit_loop_task (init 4) IndexType.int_t IndexType.int_t 0 10 (2 ^ 64 - 1)
        (fun _ _ => Outcome.no_value)).2.que = [] := by
  have hg : get_loops_per_block IndexType.int_t IndexType.int_t 0 10
      (effective_blocks (init 4) (2 ^ 64 - 1)) = Except.error Error.length_error := by
    have heff : effective_blocks (init 4) (2 ^ 64 - 1) = 2 ^ 64 - 1 := by
      unfold effective_blocks
      rw [if_pos (by decide)]
    rw [heff]
    exact get_loops_per_block_too_many IndexType.int_t 0 10 (2 ^ 64 - 1) rfl (by decide)
      (by decide) (by decide)
  refine ⟨⟨by decide, by decide, by decide, by decide, by decide⟩, ?_, ?_, ?_⟩
  · simp only [submit_loop_task, hg]
  · simp only [push_loop, hg]
  · simp only [submit_loop_task, hg]
    rfl

/-- C1 (amended): for an integral range with `0 ≤ start ≤ end` and a block count `B` with
`1 ≤ B ≤ max_size()` of `std::vector<size_t>`, the blocks that `submit_loop_task` and
`push_loop` submit are, in submission order, half-open intervals that start at `start`, each
begin where the previous one ends, are non-empty, and end at `end` when the range is
non-empty; they are pairwise disjoint and cover the range exactly, and `submit_loop_task`
returns one handle per block, in block order. -/
theorem loop_blocks_partition (p : Pool) (S : IndexType) (startIndex endIndex : Int) (B : Nat)
    (func : Nat → Nat → Outcome)
    (hS : S.is_integral = true) (h0 : 0 ≤ startIndex) (hle : startIndex ≤ endIndex)
    (hmax : endIndex < (SIZE_MOD : Int)) (hB : 1 ≤ B) (hB2 : B ≤ VECTOR_MAX_SIZE) :
    ∃ blocks : List (Nat × Nat),
      (submit_loop_task p S S startIndex endIndex B func).1
          = Except.ok (List.range' p.created blocks.length) ∧
      (submit_loop_task p S S startIndex endIndex B func).2.que
          = p.que ++ spec_items true func p.created blocks ∧
      (push_loop p S S startIndex endIndex B func).1 = Except.ok () ∧
      (push_loop p S S startIndex endIndex B func).2.que
          = p.que ++ spec_items false func p.created blocks ∧
      (∀ b, blocks.head? = some b → (b.1 : Int) = startIndex) ∧
      List.Chain' (fun a b : Nat × Nat => b.1 = a.2) blocks ∧
      (∀ b ∈ blocks, b.1 < b.2) ∧
      (startIndex < endIndex → ∃ b, blocks.getLast? = some b ∧ (b.2 : Int) = endIndex) ∧
      List.Pairwise (fun a b : Nat × Nat => a.2 ≤ b.1) blocks ∧
      (∀ x : Nat, (∃ b ∈ blocks, b.1 ≤ x ∧ x < b.2) ↔ (startIndex ≤ (x : Int) ∧ (x : Int) < endIndex)) := by
  have hsizes := get_loops_per_block_ok S startIndex endIndex B hS h0 hle hmax hB hB2
  have heff : effective_blocks p B = B := by
    unfold effective_blocks
    rw [if_pos (by omega)]
  have hsum := spec_block_sizes_sum B (Int.toNat (endIndex - startIndex)) (by omega)
  have hpos := spec_block_sizes_pos B (Int.toNat (endIndex - startIndex)) (by omega)
  have hbound : (if (0 : Nat) = 0 then Int.toNat startIndex else 0)
      + (spec_block_sizes B (Int.toNat (endIndex - startIndex))).sum < SIZE_MOD := by
    rw [hsum]
    simp only [if_true]
    omega
  have hsub := submit_loop_from_spec func startIndex h0
    (spec_block_sizes B (Int.toNat (endIndex - startIndex))) 0 0 p [] (fun _ => rfl) hbound
  have hpush := push_loop_from_spec func startIndex h0
    (spec_block_sizes B (Int.toNat (endIndex - startIndex))) 0 0 p (fun _ => rfl) hbound
  simp only [if_true] at hsub hpush
  refine ⟨spec_blocks (Int.toNat startIndex)
    (spec_block_sizes B (Int.toNat (endIndex - startIndex))), ?_, ?_, ?_, ?_, ?_, ?_, ?_, ?_, ?_, ?_⟩
  · simp only [submit_loop_task, heff, hsizes]
    rw [hsub.1, spec_blocks_length]
    simp
  · simp only [submit_loop_task, heff, hsizes]
    exact hsub.2.1
  · simp only [push_loop, heff, hsizes]
  · simp only [push_loop, heff, hsizes]
    exact hpush.1
  · intro b hb
    have := spec_blocks_head _ _ b hb
    omega
  · exact spec_blocks_chain _ _
  · exact spec_blocks_nonempty _ hpos _
  · intro hlt
    have hne : spec_block_sizes B (Int.toNat (endIndex - startIndex)) ≠ [] := by
      intro hnil
      rw [hnil] at hsum
      simp at hsum
      omega
    obtain ⟨b, hb1, hb2⟩ := spec_blocks_last _ (Int.toNat startIndex) hne
    refine ⟨b, hb1, ?_⟩
    rw [hsum] at hb2
    omega
  · exact spec_blocks_pairwise _ _
  · intro x
    rw [spec_blocks_cover, hsum]
    omega

/-- Witness of the amended C1 at `(start, end, B) = (0, 10, 3)`: the blocks are `[0,4)`,
`[4,7)`, `[7,10)` and three handles are returned. -/
theorem loop_blocks_partition_witness :
    (IndexType.int_t.is_integral = true ∧ (0 : Int) ≤ 0 ∧ (0 : Int) ≤ 10 ∧
      (10 : Int) < (SIZE_MOD : Int) ∧ 1 ≤ 3 ∧ 3 ≤ VECTOR_MAX_SIZE) ∧
    (∃ blocks : List (Nat × Nat),
      (submit_loop_task (init 4) IndexType.int_t IndexType.int_t 0 10 3
          (fun _ _ => Outcome.no_value)).1
          = Except.ok (List.range' (init 4).created blocks.length) ∧
      (submit_loop_task (init 4) IndexType.int_t IndexType.int_t 0 10 3
          (fun _ _ => Outcome.no_value)).2.que
          = (init 4).que ++ spec_items true (fun _ _ => Outcome.no_value) (init 4).created blocks ∧
      (push_loop (init 4) IndexType.int_t IndexType.int_t 0 10 3
          (fun _ _ => Outcome.no_value)).1 = Except.ok () ∧
      (push_loop (init 4) IndexType.int_t IndexType.int_t 0 10 3
          (fun _ _ => Outcome.no_value)).2.que
          = (init 4).que ++ spec_items false (fun _ _ => Outcome.no_value) (init 4).created blocks ∧
      (∀ b, blocks.head? = some b → (b.1 : Int) = 0) ∧
      List.Chain' (fun a b : Nat × Nat => b.1 = a.2) blocks ∧
      (∀ b ∈ blocks, b.1 < b.2) ∧
      ((0 : Int) < 10 → ∃ b, blocks.getLast? = some b ∧ (b.2 : Int) = 10) ∧
      List.Pairwise (fun a b : Nat × Nat => a.2 ≤ b.1) blocks ∧
      (∀ x : Nat, (∃ b ∈ blocks, b.1 ≤ x ∧ x < b.2) ↔ ((0 : Int) ≤ (x : Int) ∧ (x : Int) < 10))) ∧
    (submit_loop_task (init 4) IndexType.int_t IndexType.int_t 0 10 3
        (fun _ _ => Outcome.no_value)).1 = Except.ok [0, 1, 2] ∧
    (submit_loop_task (init 4) IndexType.int_t IndexType.int_t 0 10 3
        (fun _ _ => Outcome.no_value)).2.que.map (fun item => item.args)
        = [[0, 4], [4, 7], [7, 10]] :=
  ⟨⟨by decide, by decide, by decide, by decide, by decide, by decide⟩,
    loop_blocks_partition (init 4) IndexType.int_t 0 10 3 (fun _ _ => Outcome.no_value)
      (by decide) (by decide) (by decide) (by decide) (by decide) (by decide),
    by rfl, by decide⟩

theorem effective_blocks_zero (p : Pool) : effective_blocks p 0 = p.numberOfThreads_ui := by
  simp [effective_blocks]

theorem spec_block_sizes_sorted (B n : Nat) :
    List.Pairwise (fun x y : Nat => y ≤ x) (spec_block_sizes B n) := by
  unfold spec_block_sizes
  rw [List.pairwise_map]
  apply List.Pairwise.imp _ (List.pairwise_lt_range (min B n))
  intro a b hab
  by_cases ha : a < n % B
  · by_cases hb : b < n % B
    · simp [ha, hb]
    · simp [ha, hb]
  · have hb : ¬ b < n % B := by omega
    simp [ha, hb]

theorem spec_block_sizes_close (B n : Nat) :
    ∀ x ∈ spec_block_sizes B n, ∀ y ∈ spec_block_sizes B n, x ≤ y + 1 := by
  intro x hx y hy
  unfold spec_block_sizes at hx hy
  rcases List.mem_map.1 hx with ⟨i, _, rfl⟩
  rcases List.mem_map.1 hy with ⟨j, _, rfl⟩
  by_cases hi : i < n % B
  · by_cases hj : j < n % B
    · simp [hi, hj]
    · simp [hi, hj]
  · by_cases hj : j < n % B
    · simp [hi, hj]
      omega
    · simp [hi, hj]

/-- C2 (counterexample): the range from 0 to 10 with block count `2^64 - 1`. The range is
valid and `B ≥ 1`, but `get_loops_per_block` returns no list: the vector of line 316 cannot
be built and `std::length_error` is raised, where the claim has the list of ten blocks of
size 1. -/
theorem block_sizes_huge_block_count :
    (IndexType.int_t.is_integral = true ∧ (0 : Int) ≤ 0 ∧ (0 : Int) ≤ 10 ∧
      1 ≤ 2 ^ 64 - 1 ∧ 2 ^ 64 - 1 < SIZE_MOD) ∧
    get_loops_per_block IndexType.int_t IndexType.int_t 0 10 (2 ^ 64 - 1)
      = Except.error Error.length_error ∧
    get_loops_per_block IndexType.int_t IndexType.int_t 0 10 (2 ^ 64 - 1)
      ≠ Except.ok ((List.range (min (2 ^ 64 - 1) 10)).map
          (fun i => if i < 10 % (2 ^ 64 - 1) then 10 / (2 ^ 64 - 1) + 1
            else 10 / (2 ^ 64 - 1))) := by
  have hg := get_loops_per_block_too_many IndexType.int_t 0 10 (2 ^ 64 - 1) rfl (by decide)
    (by decide) (by decide)
  refine ⟨⟨by decide, by decide, by decide, by decide, by decide⟩, hg, ?_⟩
  rw [hg]
  intro h
  cases h

/-- C2 (amended): for `0 ≤ start ≤ end` and `B` with `1 ≤ B ≤ max_size()` of
`std::vector<size_t>`, with `len = end - start`, `get_loops_per_block` returns the list of
`min B len` block sizes whose entry `i` is `len / B + 1` when `i < len % B` and `len / B`
otherwise. So there are at most `B` blocks, none is empty, two sizes differ by at most 1
with the larger ones first, and the sizes add up to `len`; an empty range gives an empty
list, no submission and no handle; and a call with block count 0 is the call with the block
count replaced by the thread count of the pool (an `unsigned int`, at least 1). -/
theorem block_sizes_balanced (p : Pool) (S : IndexType) (startIndex endIndex : Int) (B : Nat)
    (func : Nat → Nat → Outcome)
    (hS : S.is_integral = true) (h0 : 0 ≤ startIndex) (hle : startIndex ≤ endIndex)
    (hmax : endIndex < (SIZE_MOD : Int)) (hB : 1 ≤ B) (hB2 : B ≤ VECTOR_MAX_SIZE) :
    get_loops_per_block S S startIndex endIndex B
      = Except.ok ((List.range (min B (Int.toNat (endIndex - startIndex)))).map
          (fun i => if i < Int.toNat (endIndex - startIndex) % B
            then Int.toNat (endIndex - startIndex) / B + 1
            else Int.toNat (endIndex - startIndex) / B)) ∧
    (∃ sizes : List Nat,
      get_loops_per_block S S startIndex endIndex B = Except.ok sizes ∧
      sizes.length = min B (Int.toNat (endIndex - startIndex)) ∧
      sizes.length ≤ B ∧
      (∀ x ∈ sizes, 0 < x) ∧
      (∀ x ∈ sizes, ∀ y ∈ sizes, x ≤ y + 1) ∧
      List.Pairwise (fun x y : Nat => y ≤ x) sizes ∧
      sizes.sum = Int.toNat (endIndex - startIndex) ∧
      (∃ handles : List Nat,
        (submit_loop_task p S S startIndex endIndex B func).1 = Except.ok handles ∧
        handles.length = sizes.length) ∧
      (submit_loop_task p S S startIndex endIndex B func).2.que.length
        = p.que.length + sizes.length ∧
      (push_loop p S S startIndex endIndex B func).2.que.length
        = p.que.length + sizes.length) ∧
    (startIndex = endIndex →
      get_loops_per_block S S startIndex endIndex B = Except.ok [] ∧
      submit_loop_task p S S startIndex endIndex B func = (Except.ok [], p) ∧
      push_loop p S S startIndex endIndex B func = (Except.ok (), p)) ∧
    (1 ≤ p.numberOfThreads_ui → p.numberOfThreads_ui < UINT_MOD →
      effective_blocks p 0 = p.numberOfThreads_ui ∧
      submit_loop_task p S S startIndex endIndex 0 func
        = submit_loop_task p S S startIndex endIndex p.numberOfThreads_ui func ∧
      push_loop p S S startIndex endIndex 0 func
        = push_loop p S S startIndex endIndex p.numberOfThreads_ui func ∧
      get_loops_per_block S S startIndex endIndex (effective_blocks p 0)
        = Except.ok ((List.range (min p.numberOfThreads_ui
            (Int.toNat (endIndex - startIndex)))).map
          (fun i => if i < Int.toNat (endIndex - startIndex) % p.numberOfThreads_ui
            then Int.toNat (endIndex - startIndex) / p.numberOfThreads_ui + 1
            else Int.toNat (endIndex - startIndex) / p.numberOfThreads_ui))) := by
  have hsizes := get_loops_per_block_ok S startIndex endIndex B hS h0 hle hmax hB hB2
  have heff : effective_blocks p B = B := by
    unfold effective_blocks
    rw [if_pos (by omega)]
  have hsum := spec_block_sizes_sum B (Int.toNat (endIndex - startIndex)) (by omega)
  have hlen := spec_block_sizes_length B (Int.toNat (endIndex - startIndex))
  have hbound : (if (0 : Nat) = 0 then Int.toNat startIndex else 0)
      + (spec_block_sizes B (Int.toNat (endIndex - startIndex))).sum < SIZE_MOD := by
    rw [hsum]
    simp only [if_true]
    omega
  have hsub := submit_loop_from_spec func startIndex h0
    (spec_block_sizes B (Int.toNat (endIndex - startIndex))) 0 0 p [] (fun _ => rfl) hbound
  have hpush := push_loop_from_spec func startIndex h0
    (spec_block_sizes B (Int.toNat (endIndex - startIndex))) 0 0 p (fun _ => rfl) hbound
  have hitems : ∀ (w : Bool) (bs : List (Nat × Nat)) (k : Nat),
      (spec_items w func k bs).length = bs.length := by
    intro w bs
    induction bs with
    | nil => intro k; rfl
    | cons b rest ih => intro k; simp [spec_items, ih]
  refine ⟨hsizes, ⟨spec_block_sizes B (Int.toNat (endIndex - startIndex)), hsizes, hlen,
    by omega, spec_block_sizes_pos B _ (by omega), spec_block_sizes_close B _,
    spec_block_sizes_sorted B _, hsum, ?_, ?_, ?_⟩, ?_, ?_⟩
  · refine ⟨List.range' p.created
      (spec_block_sizes B (Int.toNat (endIndex - startIndex))).length, ?_, ?_⟩
    · simp only [submit_loop_task, heff, hsizes]
      rw [hsub.1]
      simp
    · simp
  · simp only [submit_loop_task, heff, hsizes]
    rw [hsub.2.1, List.length_append, hitems, spec_blocks_length]
  · simp only [push_loop, heff, hsizes]
    rw [hpush.1, List.length_append, hitems, spec_blocks_length]
  · intro heq
    have hzero : Int.toNat (endIndex - startIndex) = 0 := by omega
    have hnil : spec_block_sizes B (Int.toNat (endIndex - startIndex)) = [] := by
      rw [hzero]
      simp [spec_block_sizes]
    rw [hnil] at hsizes
    refine ⟨hsizes, ?_, ?_⟩
    · simp only [submit_loop_task, heff, hsizes, submit_loop_from]
    · simp only [push_loop, heff, hsizes, push_loop_from]
  · intro hN hN2
    have hNmax : p.numberOfThreads_ui ≤ VECTOR_MAX_SIZE := by
      have : UINT_MOD ≤ VECTOR_MAX_SIZE := by decide
      omega
    have heffN : effective_blocks p p.numberOfThreads_ui = p.numberOfThreads_ui := by
      unfold effective_blocks
      rw [if_pos (by omega)]
    refine ⟨effective_blocks_zero p, ?_, ?_, ?_⟩
    · simp only [submit_loop_task, effective_blocks_zero, heffN]
    · simp only [push_loop, effective_blocks_zero, heffN]
    · rw [effective_blocks_zero]
      exact get_loops_per_block_ok S startIndex endIndex p.numberOfThreads_ui hS h0 hle hmax hN
        hNmax

/-- Witness of the amended C2 at `(start, end, B) = (0, 10, 3)` on a pool of four threads. -/
theorem block_sizes_balanced_witness :
    get_loops_per_block IndexType.int_t IndexType.int_t 0 10 3 = Except.ok [4, 3, 3] ∧
    get_loops_per_block IndexType.int_t IndexType.int_t 5 5 3 = Except.ok [] ∧
    get_loops_per_block IndexType.int_t IndexType.int_t 0 10 (effective_blocks (init 4) 0)
      = Except.ok [3, 3, 2, 2] :=
  have h := block_sizes_balanced (init 4) IndexType.int_t 0 10 3 (fun _ _ => Outcome.no_value)
    (by decide) (by decide) (by decide) (by decide) (by decide) (by decide)
  have h5 := block_sizes_balanced (init 4) IndexType.int_t 5 5 3 (fun _ _ => Outcome.no_value)
    (by decide) (by decide) (by decide) (by decide) (by decide) (by decide)
  ⟨h.1.trans (by rfl), (h5.2.2.1 rfl).1,
    (h.2.2.2 (by decide) (by decide)).2.2.2.trans (by rfl)⟩

/-! ## Result channel of a submitted task -/

theorem current_task_contained (body : Outcome) (h : ∀ x, body ≠ Outcome.throws (Thrown.other x)) :
    ∃ ch, ch ≠ Channel.empty ∧ current_task body Channel.empty = (ch, none) := by
  cases body with
  | value v => exact ⟨Channel.value v, by simp, rfl⟩
  | no_value => exact ⟨Channel.no_value, by simp, rfl⟩
  | throws t =>
    cases t with
    | std_exception e => exact ⟨Channel.exception (Thrown.std_exception e), by simp, rfl⟩
    | other x => exact absurd rfl (h x)

theorem current_task_escape (body : Outcome) (ch ch1 : Channel) (t : Thrown)
    (h : current_task body ch = (ch1, some t)) : ch1 = ch := by
  cases body with
  | value v => cases ch <;> simp [current_task, promise_set] at h
  | no_value => cases ch <;> simp [current_task, promise_set] at h
  | throws t1 =>
    cases t1 with
    | std_exception e => cases ch <;> simp [current_task, promise_set] at h
    | other x =>
      simp [current_task] at h
      exact h.1.symm

/-- C4 (failing input): the work item of `submit_task` stores a returned value, the absence
of a value, or an exception derived from `std::exception` in its promise and returns
normally; but a thrown value that is not derived from `std::exception` (`throw 42`) is not
caught by the handler of line 62: the promise stays empty, the exception leaves the work
item, and on a worker it leaves `worker` and terminates the process. -/
theorem current_task_other_escapes :
    (∀ v, current_task (Outcome.value v) Channel.empty = (Channel.value v, none)) ∧
    current_task Outcome.no_value Channel.empty = (Channel.no_value, none) ∧
    (∀ e, current_task (Outcome.throws (Thrown.std_exception e)) Channel.empty
      = (Channel.exception (Thrown.std_exception e), none)) ∧
    current_task (Outcome.throws (Thrown.other 42)) Channel.empty
      = (Channel.empty, some (Thrown.other 42)) ∧
    (run (init 1) [Action.submit [] (Outcome.throws (Thrown.other 42)), Action.worker_enter 0,
        Action.worker_return 0]).map
        (fun p => (p.promise 0, p.terminated, p.number_of_tasks_running_t, p.finished))
      = some (Channel.empty, true, 1, []) := by
  refine ⟨fun _ => rfl, rfl, fun _ => rfl, rfl, ?_⟩
  decide

/-! ## Drain with several callers -/

/-- C10 (failing input): two callers of `wait_for_all_tasks_in_que` and one worker. Both
callers block while item 0 is queued; the worker runs item 0 and notifies; the first caller
returns and clears `waiting_to_finish_all_tasks_b`; item 1 is pushed and the second caller,
re-checking the predicate, stays blocked. In that state one caller is blocked in drain and
the flag is false; the worker then runs item 1, and its finish step, which brings the count
to 0 with an empty queue, raises no notification (the number of notifications stays 1). -/
theorem second_drainer_not_notified :
    (run (init 1) [Action.push [] Outcome.no_value, Action.drain_enter, Action.drain_enter,
        Action.worker_enter 0, Action.worker_return 0, Action.drain_wake,
        Action.push [] Outcome.no_value, Action.drain_wake, Action.worker_enter 0]).map
        (fun p => (p.drain_waiters, p.waiting_to_finish_all_tasks_b,
          p.number_of_tasks_running_t, p.que.length, p.tasks_complete_notified))
      = some (1, false, 1, 0, 1) ∧
    (run (init 1) [Action.push [] Outcome.no_value, Action.drain_enter, Action.drain_enter,
        Action.worker_enter 0, Action.worker_return 0, Action.drain_wake,
        Action.push [] Outcome.no_value, Action.drain_wake, Action.worker_enter 0,
        Action.worker_return 0]).map
        (fun p => (p.drain_waiters, p.waiting_to_finish_all_tasks_b,
          p.number_of_tasks_running_t, p.que.length, p.tasks_complete_notified))
      = some (1, false, 0, 0, 1) := by
  decide

/-! ## Transition table of an idle worker -/

/-- C9 (counterexample): a pool with one queued item on which `kill_threads` has cleared
`worker_working_b`. The queue is non-empty, yet the woken worker does not dequeue: it
leaves the pool as it is and exits (`break` of line 283); so it enters Exiting although the
queue is not empty. -/
theorem worker_wake_exits_on_nonempty_queue :
    (kill_threads (push_task (init 1) false [] Outcome.no_value)).que
      = [{ id := 0, wrapped := false, args := [], body := Outcome.no_value }] ∧
    worker_wake (kill_threads (push_task (init 1) false [] Outcome.no_value))
      = (Wake.exit, kill_threads (push_task (init 1) false [] Outcome.no_value)) ∧
    (run (init 1) [Action.push [] Outcome.no_value, Action.worker_enter 0,
        Action.worker_return 0, Action.worker_enter 0, Action.push [] Outcome.no_value,
        Action.kill, Action.worker_wake 0]).map
        (fun p => (p.threads, p.que.length, p.number_of_tasks_running_t))
      = some ([WorkerState.Exiting], 1, 0) := by
  decide

/-- C9 (amended): the step of a woken idle worker. When the shutdown flag is set
(`worker_working_b` false) it enters Exiting and leaves the pool unchanged, whether or not
the queue is empty. Otherwise, when the queue is non-empty it removes exactly the head item,
increments the in-flight count and enters Running, the rest of the queue staying in order;
and when the queue is empty it stays Idle with the state unchanged. It enters Exiting
exactly when the shutdown flag is set. -/
theorem worker_wake_table (p : Pool) :
    (p.worker_working_b = false → worker_wake p = (Wake.exit, p)) ∧
    (p.worker_working_b = true → ∀ item rest, p.que = item :: rest →
      worker_wake p = (Wake.run item,
        { p with
          que := rest
          number_of_tasks_running_t := (p.number_of_tasks_running_t + 1) % SIZE_MOD }) ∧
      (p.number_of_tasks_running_t + 1 < SIZE_MOD →
        (worker_wake p).2.number_of_tasks_running_t = p.number_of_tasks_running_t + 1)) ∧
    (p.worker_working_b = true → p.que = [] → worker_wake p = (Wake.stay, p)) ∧
    ((worker_wake p).1 = Wake.exit ↔ p.worker_working_b = false) := by
  refine ⟨?_, ?_, ?_, ?_⟩
  · intro h
    simp [worker_wake, worker_wait_pred, h]
  · intro h item rest hq
    have hw : worker_wake p = (Wake.run item,
        { p with
          que := rest
          number_of_tasks_running_t := (p.number_of_tasks_running_t + 1) % SIZE_MOD }) := by
      simp [worker_wake, worker_wait_pred, h, hq]
    refine ⟨hw, ?_⟩
    intro hlt
    rw [hw]
    exact Nat.mod_eq_of_lt hlt
  · intro h hq
    simp [worker_wake, worker_wait_pred, h, hq]
  · constructor
    · intro h
      by_contra hne
      have hb : p.worker_working_b = true := by
        cases hv : p.worker_working_b
        · exact absurd hv hne
        · rfl
      cases hq : p.que with
      | nil => simp [worker_wake, worker_wait_pred, hb, hq] at h
      | cons item rest => simp [worker_wake, worker_wait_pred, hb, hq] at h
    · intro h
      simp [worker_wake, worker_wait_pred, h]

/-- Witness of the amended C9 on a running pool with one queued item (the head is taken) and
on the same pool after `kill_threads` (the worker exits). -/
theorem worker_wake_table_witness :
    (worker_wake (push_task (init 1) false [] Outcome.no_value)).1
      = Wake.run { id := 0, wrapped := false, args := [], body := Outcome.no_value } ∧
    (worker_wake (push_task (init 1) false [] Outcome.no_value)).2.que = [] ∧
    (worker_wake (push_task (init 1) false [] Outcome.no_value)).2.number_of_tasks_running_t
      = 1 ∧
    worker_wake (kill_threads (push_task (init 1) false [] Outcome.no_value))
      = (Wake.exit, kill_threads (push_task (init 1) false [] Outcome.no_value)) ∧
    worker_wake (init 1) = (Wake.stay, init 1) :=
  have h := ((worker_wake_table (push_task (init 1) false [] Outcome.no_value)).2.1 rfl
    { id := 0, wrapped := false, args := [], body := Outcome.no_value } [] rfl)
  ⟨by rw [h.1], by rw [h.1], h.2 (by decide),
    (worker_wake_table (kill_threads (push_task (init 1) false [] Outcome.no_value))).1 rfl,
    (worker_wake_table (init 1)).2.2.1 rfl rfl⟩

/-! ## The invariant holds in every reachable state -/

theorem running_ids_cons (a : WorkerState) (rest : List WorkerState) :
    running_ids (a :: rest) = running_ids [a] ++ running_ids rest := by
  cases a <;> rfl

theorem running_ids_set_count (l : List WorkerState) :
    ∀ (w : Nat) (x y : WorkerState), l[w]? = some x → ∀ id : Nat,
      (running_ids (l.set w y)).count id + (running_ids [x]).count id
        = (running_ids l).count id + (running_ids [y]).count id := by
  induction l with
  | nil => intro w x y h; simp at h
  | cons a rest ih =>
    intro w x y h id
    cases w with
    | zero =>
      simp at h
      subst h
      rw [List.set_cons_zero, running_ids_cons y rest, running_ids_cons a rest]
      simp only [List.count_append]
      omega
    | succ w =>
      simp at h
      have := ih w x y h id
      rw [List.set_cons_succ, running_ids_cons a (rest.set w y), running_ids_cons a rest]
      simp only [List.count_append]
      omega

theorem running_ids_set_length (l : List WorkerState) :
    ∀ (w : Nat) (x y : WorkerState), l[w]? = some x →
      (running_ids (l.set w y)).length + (running_ids [x]).length
        = (running_ids l).length + (running_ids [y]).length := by
  induction l with
  | nil => intro w x y h; simp at h
  | cons a rest ih =>
    intro w x y h
    cases w with
    | zero =>
      simp at h
      subst h
      rw [List.set_cons_zero, running_ids_cons y rest, running_ids_cons a rest]
      simp only [List.length_append]
      omega
    | succ w =>
      simp at h
      have := ih w x y h
      rw [List.set_cons_succ, running_ids_cons a (rest.set w y), running_ids_cons a rest]
      simp only [List.length_append]
      omega

theorem running_ids_length_le (l : List WorkerState) :
    (running_ids l).length ≤ l.length := by
  induction l with
  | nil => simp [running_ids]
  | cons a rest ih =>
    rw [running_ids_cons]
    cases a <;> simp [running_ids] <;> omega

theorem worker_wake_cases (p : Pool) :
    worker_wake p = (Wake.stay, p) ∨
    (p.worker_working_b = false ∧ worker_wake p = (Wake.exit, p)) ∨
    (∃ item rest, p.worker_working_b = true ∧ p.que = item :: rest ∧
      worker_wake p = (Wake.run item,
        { p with
          que := rest
          number_of_tasks_running_t := (p.number_of_tasks_running_t + 1) % SIZE_MOD })) := by
  cases hb : p.worker_working_b
  · right
    left
    exact ⟨rfl, by simp [worker_wake, worker_wait_pred, hb]⟩
  · cases hq : p.que with
    | nil =>
      left
      simp [worker_wake, worker_wait_pred, hb, hq]
    | cons item rest =>
      right
      right
      exact ⟨item, rest, rfl, rfl, by simp [worker_wake, worker_wait_pred, hb, hq]⟩

theorem promise_push_task (p : Pool) (w : Bool) (args : List Nat) (body : Outcome) (id : Nat) :
    (push_task p w args body).promise id = Channel.empty ∨
    (push_task p w args body).promise id = p.promise id := by
  have hch : (push_task p w args body).channels
      = p.channels ++ [if w then some Channel.empty else none] := by
    unfold push_task
    dsimp only
    split <;> rfl
  unfold Pool.promise
  rw [hch, List.getD_eq_getElem?_getD, List.getD_eq_getElem?_getD]
  by_cases hlt : id < p.channels.length
  · right
    rw [List.getElem?_append_left hlt]
  · left
    rw [List.getElem?_append_right (by omega)]
    by_cases h0 : id - p.channels.length = 0
    · rw [h0]
      cases w <;> simp
    · have : [if w then some Channel.empty else none][id - p.channels.length]? = none :=
        List.getElem?_eq_none (by simp; omega)
      rw [this]
      simp

theorem push_task_threads (p : Pool) (w : Bool) (args : List Nat) (body : Outcome) :
    (push_task p w args body).threads = p.threads ∧
    (push_task p w args body).number_of_tasks_running_t = p.number_of_tasks_running_t ∧
    (push_task p w args body).finished = p.finished ∧
    (push_task p w args body).worker_working_b = p.worker_working_b := by
  unfold push_task
  dsimp only
  split <;> exact ⟨rfl, rfl, rfl, rfl⟩

theorem inv_push_task (p : Pool) (w : Bool) (args : List Nat) (body : Outcome) (h : Inv p) :
    Inv (push_task p w args body) := by
  obtain ⟨h1, h2, h3, h4, h5⟩ := h
  obtain ⟨ht, hn, hf, _⟩ := push_task_threads p w args body
  unfold Inv
  rw [ht, hn, hf, push_task_que, push_task_created]
  refine ⟨h1, h2, ?_, ?_, ?_⟩
  · simp only [List.length_append, List.length_singleton]
    omega
  · intro id
    have := h4 id
    simp only [List.map_append, List.map_cons, List.map_nil, List.count_append,
      List.count_singleton]
    by_cases hid : id = p.created
    · subst hid
      simp at this ⊢
      omega
    · have hne : (p.created == id) = false := by
        simp
        omega
      rw [hne]
      simp only [Bool.false_eq_true, if_false, Nat.add_zero]
      by_cases hlt : id < p.created
      · rw [if_pos hlt] at this
        rw [if_pos (by omega)]
        omega
      · rw [if_neg hlt] at this
        rw [if_neg (by omega)]
        omega
  · intro id hne
    rcases promise_push_task p w args body id with he | he
    · exact absurd he hne
    · rw [he] at hne
      exact h5 id hne

theorem promise_congr (p q : Pool) (h : q.channels = p.channels) (id : Nat) :
    q.promise id = p.promise id := by
  unfold Pool.promise
  rw [h]

theorem inv_frame (p q : Pool) (h : Inv p) (ht : q.threads = p.threads) (hq : q.que = p.que)
    (hn : q.number_of_tasks_running_t = p.number_of_tasks_running_t)
    (hc : q.created = p.created) (hf : q.finished = p.finished)
    (hch : ∀ id, q.promise id = p.promise id) : Inv q := by
  unfold Inv at *
  rw [ht, hq, hn, hc, hf]
  refine ⟨h.1, h.2.1, h.2.2.1, h.2.2.2.1, ?_⟩
  intro id hne
  rw [hch id] at hne
  exact h.2.2.2.2 id hne

theorem inv_pickup (p : Pool) (w : Nat) (x : WorkerState) (h : Inv p)
    (hx : p.threads[w]? = some x) (hid : running_ids [x] = []) :
    Inv { (worker_wake p).2 with
      threads := (worker_wake p).2.threads.set w (worker_wake p).1.state } := by
  obtain ⟨h1, h2, h3, h4, h5⟩ := h
  rcases worker_wake_cases p with hw | ⟨_, hw⟩ | ⟨item, rest, _, hq, hw⟩
  · rw [hw]
    have hc := running_ids_set_count p.threads w x WorkerState.Idle hx
    have hl := running_ids_set_length p.threads w x WorkerState.Idle hx
    rw [hid] at hc hl
    simp only [running_ids, List.count_nil, List.length_nil, Nat.add_zero] at hc hl
    unfold Inv
    simp only [Wake.state, List.length_set]
    refine ⟨h1, by rw [hl]; exact h2, h3, ?_, h5⟩
    intro id
    rw [hc id]
    exact h4 id
  · rw [hw]
    have hc := running_ids_set_count p.threads w x WorkerState.Exiting hx
    have hl := running_ids_set_length p.threads w x WorkerState.Exiting hx
    rw [hid] at hc hl
    simp only [running_ids, List.count_nil, List.length_nil, Nat.add_zero] at hc hl
    unfold Inv
    simp only [Wake.state, List.length_set]
    refine ⟨h1, by rw [hl]; exact h2, h3, ?_, h5⟩
    intro id
    rw [hc id]
    exact h4 id
  · rw [hw]
    have hc := running_ids_set_count p.threads w x (WorkerState.Running item) hx
    have hl := running_ids_set_length p.threads w x (WorkerState.Running item) hx
    rw [hid] at hc hl
    simp only [running_ids, List.count_nil, List.length_nil, Nat.add_zero,
      List.length_singleton, List.count_singleton] at hc hl
    have hle := running_ids_length_le p.threads
    have hmod : (p.number_of_tasks_running_t + 1) % SIZE_MOD
        = p.number_of_tasks_running_t + 1 := by
      apply Nat.mod_eq_of_lt
      have : UINT_MOD < SIZE_MOD := by decide
      omega
    unfold Inv
    simp only [Wake.state, List.length_set, hmod]
    rw [hq] at h3 h4
    simp only [List.length_cons, List.map_cons, List.count_cons] at h3 h4
    refine ⟨h1, by rw [hl]; omega, by omega, ?_, h5⟩
    intro id
    rw [hc id]
    have := h4 id
    omega

theorem promise_set_channel (p q : Pool) (k : Nat) (c : Channel)
    (hq : q.channels = p.channels.set k (some c)) (id : Nat) :
    (id ≠ k → q.promise id = p.promise id) ∧
    (c = p.promise k → q.promise id = p.promise id) := by
  unfold Pool.promise
  rw [hq, List.getD_eq_getElem?_getD, List.getD_eq_getElem?_getD, List.getElem?_set]
  constructor
  · intro hne
    rw [if_neg (fun h => hne h.symm)]
  · intro hc
    by_cases hk : k = id
    · subst hk
      rw [if_pos rfl]
      by_cases hlt : k < p.channels.length
      · rw [if_pos hlt]
        simp only [Option.getD_some]
        rw [hc, List.getD_eq_getElem?_getD]
      · rw [if_neg hlt]
        have : p.channels[k]? = none := List.getElem?_eq_none (by omega)
        rw [this]
    · rw [if_neg hk]

theorem run_task_frame (p : Pool) (item : WorkItem) :
    (run_task p item).1.threads = p.threads ∧
    (run_task p item).1.que = p.que ∧
    (run_task p item).1.number_of_tasks_running_t = p.number_of_tasks_running_t ∧
    (run_task p item).1.created = p.created ∧
    (run_task p item).1.finished = p.finished ∧
    (run_task p item).1.worker_working_b = p.worker_working_b ∧
    (∀ id, id ≠ item.id → (run_task p item).1.promise id = p.promise id) ∧
    (∀ t, (run_task p item).2 = some t → ∀ id, (run_task p item).1.promise id = p.promise id) := by
  unfold run_task
  by_cases hw : item.wrapped = true
  · rw [if_pos hw]
    refine ⟨rfl, rfl, rfl, rfl, rfl, rfl, ?_, ?_⟩
    · intro id hne
      exact (promise_set_channel p _ item.id _ rfl id).1 hne
    · intro t ht id
      have hsame := current_task_escape item.body (p.promise item.id)
        (current_task item.body (p.promise item.id)).1 t (by
          dsimp only at ht
          rw [← ht])
      exact (promise_set_channel p _ item.id _ rfl id).2 hsame
  · rw [if_neg hw]
    cases item.body <;> exact ⟨rfl, rfl, rfl, rfl, rfl, rfl, fun _ _ => rfl, fun _ _ _ => rfl⟩

theorem worker_finish_frame (p : Pool) :
    (worker_finish p).threads = p.threads ∧
    (worker_finish p).que = p.que ∧
    (worker_finish p).number_of_tasks_running_t
      = (p.number_of_tasks_running_t + SIZE_MOD - 1) % SIZE_MOD ∧
    (worker_finish p).created = p.created ∧
    (worker_finish p).finished = p.finished ∧
    (worker_finish p).channels = p.channels ∧
    (worker_finish p).worker_working_b = p.worker_working_b := by
  unfold worker_finish
  dsimp only
  split <;> exact ⟨rfl, rfl, rfl, rfl, rfl, rfl, rfl⟩

theorem running_ids_mem (l : List WorkerState) :
    ∀ (w : Nat) (item : WorkItem), l[w]? = some (WorkerState.Running item) →
      item.id ∈ running_ids l := by
  induction l with
  | nil => intro w item h; simp at h
  | cons a rest ih =>
    intro w item h
    rw [running_ids_cons]
    cases w with
    | zero =>
      simp at h
      subst h
      simp [running_ids]
    | succ w =>
      simp at h
      exact List.mem_append_right _ (ih w item h)

theorem inv_return_escape (p p1 : Pool) (item : WorkItem) (t : Thrown) (h : Inv p)
    (hr : run_task p item = (p1, some t)) : Inv { p1 with terminated := true } := by
  obtain ⟨ht, hq, hn, hc, hf, _, _, hesc⟩ := run_task_frame p item
  rw [hr] at ht hq hn hc hf hesc
  exact inv_frame p _ h ht hq hn hc hf (hesc t rfl)

theorem inv_return_normal (p p1 : Pool) (w : Nat) (item : WorkItem) (h : Inv p)
    (hx : p.threads[w]? = some (WorkerState.Running item))
    (hr : run_task p item = (p1, none)) :
    Inv { worker_finish p1 with
      threads := (worker_finish p1).threads.set w WorkerState.Ready
      finished := (worker_finish p1).finished ++ [item.id] } := by
  obtain ⟨h1, h2, h3, h4, h5⟩ := h
  obtain ⟨ht, hq, hn, hc, hf, _, hpr, _⟩ := run_task_frame p item
  rw [hr] at ht hq hn hc hf hpr
  obtain ⟨ft, fq, fn, fc, ff, fch, _⟩ := worker_finish_frame p1
  have hcnt := running_ids_set_count p.threads w _ WorkerState.Ready hx
  have hlen := running_ids_set_length p.threads w _ WorkerState.Ready hx
  simp only [running_ids, List.count_nil, List.length_nil, Nat.add_zero,
    List.length_singleton, List.count_singleton] at hcnt hlen
  have hmod : (p.number_of_tasks_running_t + SIZE_MOD - 1) % SIZE_MOD
      = p.number_of_tasks_running_t - 1 := by
    have hpos : 1 ≤ p.number_of_tasks_running_t := by omega
    have hlt : p.number_of_tasks_running_t - 1 < SIZE_MOD := by
      have := running_ids_length_le p.threads
      have : UINT_MOD < SIZE_MOD := by decide
      omega
    have heq : p.number_of_tasks_running_t + SIZE_MOD - 1
        = (p.number_of_tasks_running_t - 1) + SIZE_MOD := by omega
    rw [heq, Nat.add_mod_right]
    exact Nat.mod_eq_of_lt hlt
  unfold Inv
  dsimp only
  rw [ft, fq, fn, fc, ff, ht, hq, hn, hc, hf, hmod]
  simp only [List.length_set, List.length_append, List.length_singleton, List.count_append,
    List.count_singleton]
  refine ⟨h1, by omega, by omega, ?_, ?_⟩
  · intro id
    have := h4 id
    have := hcnt id
    omega
  · intro id hne
    by_cases hid : id = item.id
    · subst hid
      simp
    · have heq : Pool.promise { worker_finish p1 with
          threads := (worker_finish p1).threads.set w WorkerState.Ready
          finished := (worker_finish p1).finished ++ [item.id] } id = p.promise id :=
        (promise_congr p1 _ fch id).trans (hpr id hid)
      refine List.mem_append_left _ (h5 id ?_)
      rw [← heq]
      exact hne

theorem inv_init (N : Nat) : Inv (init N) := by
  unfold Inv init
  have hmod : N % UINT_MOD < UINT_MOD := Nat.mod_lt N (by decide)
  have hrun : ∀ n, running_ids (List.replicate n WorkerState.Ready) = [] := by
    intro n
    induction n with
    | zero => rfl
    | succ n ih => simp [List.replicate_succ, running_ids, ih]
  simp [hrun, hmod, Pool.promise]

theorem inv_step (p p1 : Pool) (a : Action) (h : Inv p) (hs : step p a = some p1) : Inv p1 := by
  unfold step at hs
  by_cases hterm : p.terminated = true
  · simp [hterm] at hs
  · rw [if_neg hterm] at hs
    cases a with
    | submit args body =>
      simp only [Option.some.injEq] at hs
      rw [← hs]
      exact inv_push_task p true args body h
    | push args body =>
      simp only [Option.some.injEq] at hs
      rw [← hs]
      exact inv_push_task p false args body h
    | worker_enter w =>
      dsimp only at hs
      split at hs
      · rename_i hx
        simp only [Option.some.injEq] at hs
        rw [← hs]
        exact inv_pickup { p with thread_is_waiting_at_cv_b := true } w WorkerState.Ready
          (inv_frame p _ h rfl rfl rfl rfl rfl (fun _ => rfl)) hx rfl
      · simp at hs
    | worker_wake w =>
      dsimp only at hs
      split at hs
      · rename_i hx
        simp only [Option.some.injEq] at hs
        rw [← hs]
        exact inv_pickup p w WorkerState.Idle h hx rfl
      · simp at hs
    | worker_return w =>
      dsimp only at hs
      split at hs
      · rename_i item hx
        split at hs
        · rename_i p2 t hr
          simp only [Option.some.injEq] at hs
          rw [← hs]
          exact inv_return_escape p p2 item t h hr
        · rename_i p2 hr
          simp only [Option.some.injEq] at hs
          rw [← hs]
          exact inv_return_normal p p2 w item h hx hr
      · simp at hs
    | drain_enter =>
      simp only [Option.some.injEq] at hs
      rw [← hs]
      unfold drain_enter
      dsimp only
      split <;> exact inv_frame p _ h rfl rfl rfl rfl rfl (fun _ => rfl)
    | drain_wake =>
      dsimp only at hs
      split at hs
      · simp at hs
      · simp only [Option.some.injEq] at hs
        rw [← hs]
        unfold drain_wake
        split
        · exact inv_frame p _ h rfl rfl rfl rfl rfl (fun _ => rfl)
        · exact h
    | kill =>
      simp only [Option.some.injEq] at hs
      rw [← hs]
      exact inv_frame p _ h rfl rfl rfl rfl rfl (fun _ => rfl)

theorem inv_reachable (N : Nat) (p : Pool) (h : Reachable N p) : Inv p := by
  induction h with
  | start => exact inv_init N
  | next a _ hs ih => exact inv_step _ _ a ih hs

theorem reachable_steps (N : Nat) (p p1 : Pool) (h : Reachable N p) (hs : Steps p p1) :
    Reachable N p1 := by
  induction hs with
  | refl => exact h
  | next a _ hstep ih => exact Reachable.next a ih hstep

theorem reachable_of_run (N : Nat) (acts : List Action) :
    ∀ (p p1 : Pool), Reachable N p → run p acts = some p1 → Reachable N p1 := by
  induction acts with
  | nil =>
    intro p p1 h hr
    simp only [run, Option.some.injEq] at hr
    rw [← hr]
    exact h
  | cons a rest ih =>
    intro p p1 h hr
    simp only [run] at hr
    split at hr
    · simp at hr
    · rename_i p2 hstep
      exact ih p2 p1 (Reachable.next a h hstep) hr

/-! ## Drain -/

theorem all_finished_of_drained (p : Pool) (h : Inv p)
    (hn : p.number_of_tasks_running_t = 0) (hq : p.que = []) :
    ∀ id, id < p.created → id ∈ p.finished := by
  obtain ⟨_, h2, _, h4, _⟩ := h
  intro id hid
  have hrun : running_ids p.threads = [] := by
    apply List.length_eq_zero.1
    omega
  have := h4 id
  rw [hq, hrun, if_pos hid] at this
  simp only [List.map_nil, List.count_nil, Nat.zero_add] at this
  exact List.one_le_count_iff.1 (by omega)

theorem drain_pred_iff (p : Pool) :
    drain_pred p = true ↔ p.number_of_tasks_running_t = 0 ∧ p.que = [] := by
  unfold drain_pred
  cases hq : p.que <;> simp

/-- C5: in every reachable state the number of work items enqueued is the number queued plus
the in-flight count plus the number finished; and a call of `wait_for_all_tasks_in_que`
returns (at once on entry, or when a blocked caller re-checks the predicate) only in a state
whose in-flight count is 0 and whose queue is empty, where every work item enqueued so far
has finished executing. -/
theorem drain_returns_when_all_finished (N : Nat) (p : Pool) (h : Reachable N p) :
    p.created = p.que.length + p.number_of_tasks_running_t + p.finished.length ∧
    (∀ p1 : Pool,
      ((step p Action.drain_wake = some p1 ∧ p1.drain_waiters < p.drain_waiters) ∨
        (step p Action.drain_enter = some p1 ∧ p1.drain_waiters = p.drain_waiters)) →
      p.number_of_tasks_running_t = 0 ∧ p.que = [] ∧
      p1.number_of_tasks_running_t = 0 ∧ p1.que = [] ∧
      p1.finished = p.finished ∧
      ∀ id, id < p.created → id ∈ p1.finished) := by
  have hinv := inv_reachable N p h
  refine ⟨hinv.2.2.1, ?_⟩
  intro p1 hret
  have hpred : drain_pred p = true ∧ p1.number_of_tasks_running_t = p.number_of_tasks_running_t
      ∧ p1.que = p.que ∧ p1.finished = p.finished := by
    rcases hret with ⟨hs, hlt⟩ | ⟨hs, heq⟩
    · unfold step at hs
      by_cases hterm : p.terminated = true
      · simp [hterm] at hs
      · rw [if_neg hterm] at hs
        dsimp only at hs
        split at hs
        · simp at hs
        · simp only [Option.some.injEq] at hs
          unfold drain_wake at hs
          by_cases hp : drain_pred p = true
          · rw [if_pos hp] at hs
            rw [← hs]
            exact ⟨hp, rfl, rfl, rfl⟩
          · rw [if_neg hp] at hs
            rw [← hs] at hlt
            omega
    · unfold step at hs
      by_cases hterm : p.terminated = true
      · simp [hterm] at hs
      · rw [if_neg hterm] at hs
        simp only [Option.some.injEq] at hs
        unfold drain_enter at hs
        dsimp only at hs
        by_cases hp : drain_pred { p with waiting_to_finish_all_tasks_b := true } = true
        · rw [if_pos hp] at hs
          rw [← hs]
          exact ⟨hp, rfl, rfl, rfl⟩
        · rw [if_neg hp] at hs
          rw [← hs] at heq
          simp at heq
  obtain ⟨hp, e1, e2, e3⟩ := hpred
  obtain ⟨hn, hq⟩ := (drain_pred_iff p).1 hp
  refine ⟨hn, hq, by rw [e1, hn], by rw [e2, hq], e3, ?_⟩
  intro id hid
  rw [e3]
  exact all_finished_of_drained p hinv hn hq id hid

/-- Witness of C5: two work items are enqueued, a caller enters drain and blocks, two
workers run the items, and the blocked caller returns; both items have finished by then. -/
theorem drain_returns_when_all_finished_witness :
    run (init 2) example_drained_trace = some example_drained ∧
    step example_drained Action.drain_wake
      = some { example_drained with waiting_to_finish_all_tasks_b := false, drain_waiters := 0 } ∧
    example_drained.created = 2 ∧
    ∀ id, id < example_drained.created → id ∈ example_drained.finished :=
  ⟨by decide, by decide, rfl,
    fun id hid =>
      ((drain_returns_when_all_finished 2 example_drained
        (reachable_of_run 2 example_drained_trace (init 2) example_drained Reachable.start
          (by decide))).2
        { example_drained with waiting_to_finish_all_tasks_b := false, drain_waiters := 0 }
        (Or.inl ⟨by decide, by decide⟩)).2.2.2.2.2 id hid⟩

/-! ## Shutdown -/

theorem running_ids_set_subset (l : List WorkerState) (w : Nat) (x y : WorkerState)
    (hx : l[w]? = some x) (hy : running_ids [y] = []) :
    ∀ id, id ∈ running_ids (l.set w y) → id ∈ running_ids l := by
  intro id hid
  have hc := running_ids_set_count l w x y hx id
  rw [hy] at hc
  simp only [List.count_nil, Nat.add_zero] at hc
  have h1 : 1 ≤ (running_ids (l.set w y)).count id := List.one_le_count_iff.2 hid
  exact List.one_le_count_iff.1 (by omega)

theorem worker_wake_killed (p : Pool) (h : p.worker_working_b = false) :
    worker_wake p = (Wake.exit, p) := by
  simp [worker_wake, worker_wait_pred, h]

/-- One step of a pool whose shutdown flag is set: the flag stays set, the queue only grows
at its tail, nothing is dequeued, and only an item that was in flight can finish. -/
theorem killed_step (p p1 : Pool) (a : Action) (hk : p.worker_working_b = false)
    (hs : step p a = some p1) :
    p1.worker_working_b = false ∧
    (∃ later, p1.que = p.que ++ later) ∧
    (∀ id, id ∈ p1.finished → id ∈ p.finished ∨ id ∈ running_ids p.threads) ∧
    (∀ id, id ∈ running_ids p1.threads → id ∈ running_ids p.threads) := by
  unfold step at hs
  by_cases hterm : p.terminated = true
  · simp [hterm] at hs
  · rw [if_neg hterm] at hs
    cases a with
    | submit args body =>
      simp only [Option.some.injEq] at hs
      rw [← hs]
      obtain ⟨ht, _, hf, hb⟩ := push_task_threads p true args body
      simp only [submit_task]
      rw [ht, hf, hb, push_task_que]
      exact ⟨hk, ⟨_, rfl⟩, fun id h => Or.inl h, fun id h => h⟩
    | push args body =>
      simp only [Option.some.injEq] at hs
      rw [← hs]
      obtain ⟨ht, _, hf, hb⟩ := push_task_threads p false args body
      rw [ht, hf, hb, push_task_que]
      exact ⟨hk, ⟨_, rfl⟩, fun id h => Or.inl h, fun id h => h⟩
    | worker_enter w =>
      dsimp only at hs
      split at hs
      · rename_i hx
        rw [worker_wake_killed { p with thread_is_waiting_at_cv_b := true } hk] at hs
        simp only [Option.some.injEq] at hs
        rw [← hs]
        exact ⟨hk, ⟨[], by simp⟩, fun id h => Or.inl h,
          running_ids_set_subset p.threads w _ WorkerState.Exiting hx rfl⟩
      · simp at hs
    | worker_wake w =>
      dsimp only at hs
      split at hs
      · rename_i hx
        rw [worker_wake_killed p hk] at hs
        simp only [Option.some.injEq] at hs
        rw [← hs]
        exact ⟨hk, ⟨[], by simp⟩, fun id h => Or.inl h,
          running_ids_set_subset p.threads w _ WorkerState.Exiting hx rfl⟩
      · simp at hs
    | worker_return w =>
      dsimp only at hs
      split at hs
      · rename_i item hx
        obtain ⟨ht, hq, _, _, hf, hb, _, _⟩ := run_task_frame p item
        split at hs
        · rename_i p2 t hr
          rw [hr] at ht hq hf hb
          simp only [Option.some.injEq] at hs
          rw [← hs]
          dsimp only at ht hq hf hb ⊢
          rw [ht, hq, hf, hb]
          exact ⟨hk, ⟨[], by simp⟩, fun id h => Or.inl h, fun id h => h⟩
        · rename_i p2 hr
          rw [hr] at ht hq hf hb
          obtain ⟨ft, fq, _, _, ff, _, fb⟩ := worker_finish_frame p2
          simp only [Option.some.injEq] at hs
          rw [← hs]
          dsimp only at ht hq hf hb ⊢
          rw [ft, fq, ff, fb, ht, hq, hf, hb]
          refine ⟨hk, ⟨[], by simp⟩, ?_, ?_⟩
          · intro id hid
            rcases List.mem_append.1 hid with h | h
            · exact Or.inl h
            · simp only [List.mem_singleton] at h
              rw [h]
              exact Or.inr (running_ids_mem p.threads w item hx)
          · exact running_ids_set_subset p.threads w _ WorkerState.Ready hx rfl
      · simp at hs
    | drain_enter =>
      simp only [Option.some.injEq] at hs
      rw [← hs]
      unfold drain_enter
      dsimp only
      split <;> exact ⟨hk, ⟨[], by simp⟩, fun id h => Or.inl h, fun id h => h⟩
    | drain_wake =>
      dsimp only at hs
      split at hs
      · simp at hs
      · simp only [Option.some.injEq] at hs
        rw [← hs]
        unfold drain_wake
        split <;> exact ⟨hk, ⟨[], by simp⟩, fun id h => Or.inl h, fun id h => h⟩
    | kill =>
      simp only [Option.some.injEq] at hs
      rw [← hs]
      exact ⟨rfl, ⟨[], by simp [kill_threads]⟩, fun id h => Or.inl h, fun id h => h⟩

theorem killed_steps (p p1 : Pool) (hk : p.worker_working_b = false) (hs : Steps p p1) :
    p1.worker_working_b = false ∧
    (∃ later, p1.que = p.que ++ later) ∧
    (∀ id, id ∈ p1.finished → id ∈ p.finished ∨ id ∈ running_ids p.threads) ∧
    (∀ id, id ∈ running_ids p1.threads → id ∈ running_ids p.threads) := by
  induction hs with
  | refl => exact ⟨hk, ⟨[], by simp⟩, fun id h => Or.inl h, fun id h => h⟩
  | next a _ hstep ih =>
    obtain ⟨i1, ⟨l1, i2⟩, i3, i4⟩ := ih
    obtain ⟨s1, ⟨l2, s2⟩, s3, s4⟩ := killed_step _ _ a i1 hstep
    refine ⟨s1, ⟨l1 ++ l2, by rw [s2, i2, List.append_assoc]⟩, ?_, ?_⟩
    · intro id hid
      rcases s3 id hid with h | h
      · exact i3 id h
      · exact Or.inr (i4 id h)
    · intro id hid
      exact i4 id (s4 id hid)

/-- C7: once `kill_threads` has cleared `worker_working_b`, in every later state the flag is
still cleared and no worker dequeues: a worker that takes the mutex at line 281 exits and
leaves queue and count as they are; every work item queued at that moment is still queued,
has not been executed by any thread, has not finished, and its promise is not set; and only
items that were in flight at that moment have finished since. -/
theorem queued_items_abandoned_after_kill (N : Nat) (p p1 : Pool) (h : Reachable N p)
    (hk : p.worker_working_b = false) (hs : Steps p p1) :
    p1.worker_working_b = false ∧
    (∃ later, p1.que = p.que ++ later) ∧
    (∀ item, item ∈ p.que →
      item ∈ p1.que ∧ item.id ∉ running_ids p1.threads ∧ item.id ∉ p1.finished ∧
      p1.promise item.id = Channel.empty) ∧
    (∀ id, id ∈ p1.finished → id ∈ p.finished ∨ id ∈ running_ids p.threads) ∧
    (∀ (w : Nat) (p2 : Pool),
      (step p1 (Action.worker_enter w) = some p2 ∨ step p1 (Action.worker_wake w) = some p2) →
      p2.que = p1.que ∧ p2.number_of_tasks_running_t = p1.number_of_tasks_running_t ∧
      p2.threads = p1.threads.set w WorkerState.Exiting) := by
  obtain ⟨k1, ⟨later, k2⟩, k3, _⟩ := killed_steps p p1 hk hs
  obtain ⟨_, _, _, h4, h5⟩ := inv_reachable N p1 (reachable_steps N p p1 h hs)
  refine ⟨k1, ⟨later, k2⟩, ?_, k3, ?_⟩
  · intro item hitem
    have hmem : item ∈ p1.que := by
      rw [k2]
      exact List.mem_append_left _ hitem
    have hcount : 1 ≤ (p1.que.map (fun item => item.id)).count item.id :=
      List.one_le_count_iff.2 (List.mem_map_of_mem _ hmem)
    have hsum := h4 item.id
    have hle : (if item.id < p1.created then 1 else 0) ≤ 1 := by
      split <;> omega
    have hfin : item.id ∉ p1.finished := by
      intro hin
      have : 1 ≤ p1.finished.count item.id := List.one_le_count_iff.2 hin
      omega
    refine ⟨hmem, ?_, hfin, ?_⟩
    · intro hin
      have : 1 ≤ (running_ids p1.threads).count item.id := List.one_le_count_iff.2 hin
      omega
    · by_contra hne
      exact hfin (h5 item.id hne)
  · intro w p2 hstep
    rcases hstep with hs2 | hs2
    · unfold step at hs2
      by_cases hterm : p1.terminated = true
      · simp [hterm] at hs2
      · rw [if_neg hterm] at hs2
        dsimp only at hs2
        split at hs2
        · rw [worker_wake_killed { p1 with thread_is_waiting_at_cv_b := true } k1] at hs2
          simp only [Option.some.injEq] at hs2
          rw [← hs2]
          exact ⟨rfl, rfl, rfl⟩
        · simp at hs2
    · unfold step at hs2
      by_cases hterm : p1.terminated = true
      · simp [hterm] at hs2
      · rw [if_neg hterm] at hs2
        dsimp only at hs2
        split at hs2
        · rw [worker_wake_killed p1 k1] at hs2
          simp only [Option.some.injEq] at hs2
          rw [← hs2]
          exact ⟨rfl, rfl, rfl⟩
        · simp at hs2

theorem steps_of_run (acts : List Action) :
    ∀ (p0 p p1 : Pool), Steps p0 p → run p acts = some p1 → Steps p0 p1 := by
  induction acts with
  | nil =>
    intro p0 p p1 h hr
    simp only [run, Option.some.injEq] at hr
    rw [← hr]
    exact h
  | cons a rest ih =>
    intro p0 p p1 h hr
    simp only [run] at hr
    split at hr
    · simp at hr
    · rename_i p2 hstep
      exact ih p0 p2 p1 (Steps.next a h hstep) hr

/-- Witness of C7: `kill_threads` runs while item 0 is in flight and item 1 is queued; later
both threads have exited and item 0 has finished, while item 1 is still queued with its
promise not set. -/
theorem queued_items_abandoned_after_kill_witness :
    run (init 2) example_killed_trace = some example_killed ∧
    run example_killed example_shut_down_trace = some example_shut_down ∧
    example_killed.worker_working_b = false ∧
    example_killed.que = [{ id := 1, wrapped := true, args := [], body := Outcome.value 5 }] ∧
    example_shut_down.finished = [0] ∧
    (∀ item, item ∈ example_killed.que →
      item ∈ example_shut_down.que ∧ item.id ∉ running_ids example_shut_down.threads ∧
      item.id ∉ example_shut_down.finished ∧
      example_shut_down.promise item.id = Channel.empty) :=
  ⟨by decide, by decide, rfl, rfl, rfl,
    (queued_items_abandoned_after_kill 2 example_killed example_shut_down
      (reachable_of_run 2 example_killed_trace (init 2) example_killed Reachable.start
        (by decide))
      rfl
      (steps_of_run example_shut_down_trace example_killed example_killed example_shut_down
        Steps.refl (by decide))).2.2.1⟩

/-! ## Submission after shutdown -/

theorem submit_loop_from_append (func : Nat → Nat → Outcome) (startIndex : Int)
    (sizes : List Nat) :
    ∀ (i cur : Nat) (p : Pool) (futures : List Nat),
      ∃ later : List WorkItem,
        (submit_loop_from func startIndex sizes i cur p futures).2.que = p.que ++ later ∧
        later.map (fun item => item.id) = List.range' p.created sizes.length ∧
        (∀ item ∈ later, item.wrapped = true) ∧
        (submit_loop_from func startIndex sizes i cur p futures).1
          = futures ++ List.range' p.created sizes.length := by
  induction sizes with
  | nil =>
    intro i cur p futures
    exact ⟨[], by simp [submit_loop_from], rfl, by simp, by simp [submit_loop_from]⟩
  | cons n rest ih =>
    intro i cur p futures
    unfold submit_loop_from
    dsimp only
    obtain ⟨later, h1, h2, h3, h4⟩ := ih (i + 1)
      (((if i = 0 then Int.toNat ((startIndex + (cur : Int)) % (SIZE_MOD : Int)) else cur) + n)
        % SIZE_MOD)
      (submit_task p [if i = 0 then Int.toNat ((startIndex + (cur : Int)) % (SIZE_MOD : Int))
          else cur,
          ((if i = 0 then Int.toNat ((startIndex + (cur : Int)) % (SIZE_MOD : Int)) else cur)
            + n) % SIZE_MOD]
        (func (if i = 0 then Int.toNat ((startIndex + (cur : Int)) % (SIZE_MOD : Int)) else cur)
          (((if i = 0 then Int.toNat ((startIndex + (cur : Int)) % (SIZE_MOD : Int)) else cur)
            + n) % SIZE_MOD))).2
      (futures ++ [(submit_task p
        [if i = 0 then Int.toNat ((startIndex + (cur : Int)) % (SIZE_MOD : Int)) else cur,
          ((if i = 0 then Int.toNat ((startIndex + (cur : Int)) % (SIZE_MOD : Int)) else cur)
            + n) % SIZE_MOD]
        (func (if i = 0 then Int.toNat ((startIndex + (cur : Int)) % (SIZE_MOD : Int)) else cur)
          (((if i = 0 then Int.toNat ((startIndex + (cur : Int)) % (SIZE_MOD : Int)) else cur)
            + n) % SIZE_MOD))).1])
    rw [h1, h4]
    simp only [submit_task, push_task_que, push_task_created, List.append_assoc] at h2 ⊢
    refine ⟨_, rfl, ?_, ?_, ?_⟩
    · simp [h2, List.range'_succ]
    · intro item hitem
      rcases List.mem_append.1 hitem with hm | hm
      · simp only [List.mem_singleton] at hm
        rw [hm]
      · exact h3 item hm
    · simp [List.range'_succ]

theorem push_loop_from_append (func : Nat → Nat → Outcome) (startIndex : Int)
    (sizes : List Nat) :
    ∀ (i cur : Nat) (p : Pool),
      ∃ later : List WorkItem,
        (push_loop_from func startIndex sizes i cur p).que = p.que ++ later ∧
        later.map (fun item => item.id) = List.range' p.created sizes.length ∧
        (∀ item ∈ later, item.wrapped = false) := by
  induction sizes with
  | nil =>
    intro i cur p
    exact ⟨[], by simp [push_loop_from], rfl, by simp⟩
  | cons n rest ih =>
    intro i cur p
    unfold push_loop_from
    dsimp only
    obtain ⟨later, h1, h2, h3⟩ := ih (i + 1)
      (((if i = 0 then Int.toNat ((startIndex + (cur : Int)) % (SIZE_MOD : Int)) else cur) + n)
        % SIZE_MOD)
      (push_task p false
        [if i = 0 then Int.toNat ((startIndex + (cur : Int)) % (SIZE_MOD : Int)) else cur,
          ((if i = 0 then Int.toNat ((startIndex + (cur : Int)) % (SIZE_MOD : Int)) else cur)
            + n) % SIZE_MOD]
        (func (if i = 0 then Int.toNat ((startIndex + (cur : Int)) % (SIZE_MOD : Int)) else cur)
          (((if i = 0 then Int.toNat ((startIndex + (cur : Int)) % (SIZE_MOD : Int)) else cur)
            + n) % SIZE_MOD)))
    rw [h1]
    simp only [push_task_que, push_task_created, List.append_assoc] at h2 ⊢
    refine ⟨_, rfl, ?_, ?_⟩
    · simp [h2, List.range'_succ]
    · intro item hitem
      rcases List.mem_append.1 hitem with hm | hm
      · simp only [List.mem_singleton] at hm
        rw [hm]
      · exact h3 item hm

theorem no_worker_step_after_shutdown (p : Pool) (h : shutdown_complete p) (w : Nat) :
    step p (Action.worker_enter w) = none ∧ step p (Action.worker_wake w) = none ∧
    step p (Action.worker_return w) = none := by
  have hx : p.threads[w]? = none ∨ p.threads[w]? = some WorkerState.Exiting := by
    cases hg : p.threads[w]? with
    | none => exact Or.inl rfl
    | some t =>
      right
      rw [h.2 t (List.getElem?_mem hg)]
  unfold step
  by_cases hterm : p.terminated = true
  · simp [hterm]
  · rcases hx with hx | hx <;> simp [hterm, hx]

/-- C6 (counterexample): on `example_shut_down`, a reachable pool whose shutdown has
completed (flag cleared, both threads exited), `submit_task` and `push_task` raise no error
and append a work item to the queue, and `submit_loop_task` returns three handles and
appends three work items. -/
theorem submit_after_shutdown_enqueues :
    run (init 2) (example_killed_trace ++ example_shut_down_trace) = some example_shut_down ∧
    (example_shut_down.worker_working_b = false ∧
      example_shut_down.threads = [WorkerState.Exiting, WorkerState.Exiting]) ∧
    (submit_task example_shut_down [] (Outcome.value 9)).2.que
      = example_shut_down.que
        ++ [{ id := 3, wrapped := true, args := [], body := Outcome.value 9 }] ∧
    (push_task example_shut_down false [] Outcome.no_value).que
      = example_shut_down.que
        ++ [{ id := 3, wrapped := false, args := [], body := Outcome.no_value }] ∧
    (submit_loop_task example_shut_down IndexType.int_t IndexType.int_t 0 10 3
        (fun _ _ => Outcome.no_value)).1 = Except.ok [3, 4, 5] ∧
    (submit_loop_task example_shut_down IndexType.int_t IndexType.int_t 0 10 3
        (fun _ _ => Outcome.no_value)).2.que.length = example_shut_down.que.length + 3 ∧
    (push_loop example_shut_down IndexType.int_t IndexType.int_t 0 10 3
        (fun _ _ => Outcome.no_value)).2.que.length = example_shut_down.que.length + 3 ∧
    (step example_shut_down (Action.submit [] (Outcome.value 9))).map (fun p => p.que.length)
      = some 3 := by
  refine ⟨by decide, by decide, by decide, by decide, by rfl, by decide, by decide, by decide⟩

/-- C6 (amended): on a pool whose shutdown has completed, `submit_task` and `push_task` raise
no error and append exactly one work item at the tail of the queue. `submit_loop_task` and
`push_loop` either leave through the exception of `get_loops_per_block`
(`std::invalid_argument`, or `std::length_error` for a block count above `max_size()`) with
the pool as it was, or append at the tail of the queue one work item per entry of the list
of block sizes, numbered in order, `submit_loop_task` returning the handle of each; for a
valid range and a block count within `max_size()` these are exactly the work items of the
consecutive blocks of the range. Shutdown stays completed, and no thread of the pool takes a
step any more, so the appended items are never dequeued. -/
theorem submission_after_shutdown (p : Pool) (h : shutdown_complete p) (args : List Nat)
    (body : Outcome) (S E : IndexType) (startIndex endIndex : Int) (B : Nat)
    (func : Nat → Nat → Outcome) :
    ((submit_task p args body).1 = p.created ∧
      (submit_task p args body).2.que
        = p.que ++ [{ id := p.created, wrapped := true, args := args, body := body }] ∧
      shutdown_complete (submit_task p args body).2) ∧
    ((push_task p false args body).que
        = p.que ++ [{ id := p.created, wrapped := false, args := args, body := body }] ∧
      shutdown_complete (push_task p false args body)) ∧
    (∀ e, get_loops_per_block S E startIndex endIndex (effective_blocks p B) = Except.error e →
      submit_loop_task p S E startIndex endIndex B func = (Except.error e, p) ∧
      push_loop p S E startIndex endIndex B func = (Except.error e, p)) ∧
    (∀ sizes,
      get_loops_per_block S E startIndex endIndex (effective_blocks p B) = Except.ok sizes →
      ∃ later_submit later_push : List WorkItem,
        (submit_loop_task p S E startIndex endIndex B func).1
          = Except.ok (List.range' p.created sizes.length) ∧
        (submit_loop_task p S E startIndex endIndex B func).2.que = p.que ++ later_submit ∧
        later_submit.map (fun item => item.id) = List.range' p.created sizes.length ∧
        (∀ item ∈ later_submit, item.wrapped = true) ∧
        (push_loop p S E startIndex endIndex B func).1 = Except.ok () ∧
        (push_loop p S E startIndex endIndex B func).2.que = p.que ++ later_push ∧
        later_push.map (fun item => item.id) = List.range' p.created sizes.length ∧
        (∀ item ∈ later_push, item.wrapped = false)) ∧
    (S = E → S.is_integral = true → 0 ≤ startIndex → startIndex ≤ endIndex →
      endIndex < (SIZE_MOD : Int) → 1 ≤ effective_blocks p B →
      effective_blocks p B ≤ VECTOR_MAX_SIZE →
      (submit_loop_task p S E startIndex endIndex B func).2.que
        = p.que ++ spec_items true func p.created
            (spec_blocks (Int.toNat startIndex)
              (spec_block_sizes (effective_blocks p B) (Int.toNat (endIndex - startIndex)))) ∧
      (push_loop p S E startIndex endIndex B func).2.que
        = p.que ++ spec_items false func p.created
            (spec_blocks (Int.toNat startIndex)
              (spec_block_sizes (effective_blocks p B) (Int.toNat (endIndex - startIndex))))) ∧
    (∀ w, step p (Action.worker_enter w) = none ∧ step p (Action.worker_wake w) = none ∧
      step p (Action.worker_return w) = none) ∧
    (∀ w, step (push_task p false args body) (Action.worker_enter w) = none ∧
      step (push_task p false args body) (Action.worker_wake w) = none ∧
      step (push_task p false args body) (Action.worker_return w) = none) := by
  have hkeep : ∀ wr, shutdown_complete (push_task p wr args body) := by
    intro wr
    obtain ⟨ht, _, _, hb⟩ := push_task_threads p wr args body
    unfold shutdown_complete
    rw [ht, hb]
    exact h
  refine ⟨⟨rfl, push_task_que p true args body, hkeep true⟩,
    ⟨push_task_que p false args body, hkeep false⟩, ?_, ?_, ?_,
    no_worker_step_after_shutdown p h,
    no_worker_step_after_shutdown _ (hkeep false)⟩
  · intro e hg
    constructor
    · simp only [submit_loop_task, hg]
    · simp only [push_loop, hg]
  · intro sizes hg
    obtain ⟨ls, s1, s2, s3, s4⟩ := submit_loop_from_append func startIndex sizes 0 0 p []
    obtain ⟨lp, p1, p2, p3⟩ := push_loop_from_append func startIndex sizes 0 0 p
    refine ⟨ls, lp, ?_, ?_, s2, s3, ?_, ?_, p2, p3⟩
    · simp only [submit_loop_task, hg]
      rw [s4]
      simp
    · simp only [submit_loop_task, hg]
      exact s1
    · simp only [push_loop, hg]
    · simp only [push_loop, hg]
      exact p1
  · intro hSE hS h0 hle hmax hB1 hB2
    subst hSE
    have hsizes := get_loops_per_block_ok S startIndex endIndex (effective_blocks p B) hS h0
      hle hmax hB1 hB2
    have hsum := spec_block_sizes_sum (effective_blocks p B)
      (Int.toNat (endIndex - startIndex)) (by omega)
    have hbound : (if (0 : Nat) = 0 then Int.toNat startIndex else 0)
        + (spec_block_sizes (effective_blocks p B)
            (Int.toNat (endIndex - startIndex))).sum < SIZE_MOD := by
      rw [hsum]
      simp only [if_true]
      omega
    have hsub := submit_loop_from_spec func startIndex h0
      (spec_block_sizes (effective_blocks p B) (Int.toNat (endIndex - startIndex))) 0 0 p []
      (fun _ => rfl) hbound
    have hpush := push_loop_from_spec func startIndex h0
      (spec_block_sizes (effective_blocks p B) (Int.toNat (endIndex - startIndex))) 0 0 p
      (fun _ => rfl) hbound
    simp only [if_true] at hsub hpush
    constructor
    · simp only [submit_loop_task, hsizes]
      exact hsub.2.1
    · simp only [push_loop, hsizes]
      exact hpush.1

/-- Witness of the amended C6 on `example_shut_down`: `submit_task` appends item 3, and
`submit_loop_task` on the range from 0 to 10 with three blocks appends the items 3, 4, 5 of
the blocks `[0,4)`, `[4,7)`, `[7,10)` and returns their handles. -/
theorem submission_after_shutdown_witness :
    shutdown_complete example_shut_down ∧
    (submit_task example_shut_down [] (Outcome.value 9)).1 = 3 ∧
    (submit_task example_shut_down [] (Outcome.value 9)).2.que
      = example_shut_down.que
        ++ [{ id := 3, wrapped := true, args := [], body := Outcome.value 9 }] ∧
    (submit_loop_task example_shut_down IndexType.int_t IndexType.int_t 0 10 3
        (fun _ _ => Outcome.no_value)).2.que
      = example_shut_down.que ++
        [{ id := 3, wrapped := true, args := [0, 4], body := Outcome.no_value },
          { id := 4, wrapped := true, args := [4, 7], body := Outcome.no_value },
          { id := 5, wrapped := true, args := [7, 10], body := Outcome.no_value }] ∧
    step (push_task example_shut_down false [] (Outcome.value 9)) (Action.worker_wake 0)
      = none :=
  have hsd : shutdown_complete example_shut_down := ⟨rfl, by decide⟩
  have h := submission_after_shutdown example_shut_down hsd [] (Outcome.value 9)
    IndexType.int_t IndexType.int_t 0 10 3 (fun _ _ => Outcome.no_value)
  ⟨hsd, h.1.1, h.1.2.1,
    (h.2.2.2.2.1 rfl (by decide) (by decide) (by decide) (by decide) (by decide)
      (by decide)).1.trans (by decide),
    (h.2.2.2.2.2.2 0).2.1⟩

/-! ## In-flight count at the end of a work item -/

/-- C8 (failing input): in every reachable state the in-flight count is the number of
threads that are executing a work item, at most the number of threads. But a work item
enqueued by `push_task` whose callable throws (`std::runtime_error`) breaks the second half:
the worker dequeues it and increments the count to 1; when the body ends by the exception,
nothing catches it in `worker`, so the count is still 1, the thread is not back at the head
of the loop, and the process has terminated. -/
theorem push_task_throw_not_decremented :
    (∀ (N : Nat) (p : Pool), Reachable N p →
      p.number_of_tasks_running_t = (running_ids p.threads).length ∧
      p.number_of_tasks_running_t ≤ p.threads.length) ∧
    (run (init 1) [Action.push [] (Outcome.throws (Thrown.std_exception 7)),
        Action.worker_enter 0]).map
        (fun p => (p.number_of_tasks_running_t, p.threads, p.terminated))
      = some (1, [WorkerState.Running
          { id := 0, wrapped := false, args := [],
            body := Outcome.throws (Thrown.std_exception 7) }], false) ∧
    (run (init 1) [Action.push [] (Outcome.throws (Thrown.std_exception 7)),
        Action.worker_enter 0, Action.worker_return 0]).map
        (fun p => (p.number_of_tasks_running_t, p.threads, p.terminated))
      = some (1, [WorkerState.Running
          { id := 0, wrapped := false, args := [],
            body := Outcome.throws (Thrown.std_exception 7) }], true) := by
  refine ⟨?_, by decide, by decide⟩
  intro N p h
  have hinv := inv_reachable N p h
  have hle := running_ids_length_le p.threads
  exact ⟨hinv.2.1, by rw [hinv.2.1]; exact hle⟩

/-! ## Validation of a loop request -/

theorem get_loops_per_block_invalid (S E : IndexType) (startIndex endIndex : Int) (B : Nat)
    (h : S ≠ E ∨ S.is_integral = false ∨ startIndex < 0 ∨ endIndex < startIndex) :
    get_loops_per_block S E startIndex endIndex B = Except.error Error.invalid_argument := by
  unfold get_loops_per_block
  by_cases h1 : S ≠ E ∨ S.is_integral = false ∨ S.is_floating_point = true ∨ S = IndexType.string_t
  · rw [if_pos h1]
  · rw [if_neg h1]
    have h2 : startIndex < 0 ∨ endIndex < startIndex ∨ B < 1 := by
      rcases h with h | h | h | h
      · exact absurd (Or.inl h) h1
      · exact absurd (Or.inr (Or.inl h)) h1
      · exact Or.inl h
      · exact Or.inr (Or.inl h)
    rw [if_pos h2]

theorem get_loops_per_block_valid (S : IndexType) (startIndex endIndex : Int) (B : Nat)
    (hS : S.is_integral = true) (h0 : 0 ≤ startIndex) (hle : startIndex ≤ endIndex)
    (hB : 1 ≤ B) :
    get_loops_per_block S S startIndex endIndex B ≠ Except.error Error.invalid_argument := by
  have hfl : S.is_floating_point = false := by
    cases S <;> simp_all [IndexType.is_integral, IndexType.is_floating_point]
  have hstr : S ≠ IndexType.string_t := by
    intro h
    rw [h] at hS
    simp [IndexType.is_integral] at hS
  unfold get_loops_per_block
  rw [if_neg (by simp [hS, hfl, hstr]), if_neg (by omega)]
  by_cases hbig : VECTOR_MAX_SIZE < B
  · rw [if_pos hbig]
    intro h
    cases h
  · rw [if_neg hbig]
    intro h
    cases h

theorem push_task_thread_count (p : Pool) (w : Bool) (args : List Nat) (body : Outcome) :
    (push_task p w args body).numberOfThreads_ui = p.numberOfThreads_ui := by
  unfold push_task
  dsimp only
  split <;> rfl

theorem worker_wake_thread_count (p : Pool) :
    (worker_wake p).2.numberOfThreads_ui = p.numberOfThreads_ui := by
  rcases worker_wake_cases p with h | ⟨_, h⟩ | ⟨item, rest, _, _, h⟩ <;> rw [h]

theorem run_task_thread_count (p : Pool) (item : WorkItem) :
    (run_task p item).1.numberOfThreads_ui = p.numberOfThreads_ui := by
  unfold run_task
  by_cases hw : item.wrapped = true
  · rw [if_pos hw]
  · rw [if_neg hw]
    cases item.body <;> rfl

theorem worker_finish_thread_count (p : Pool) :
    (worker_finish p).numberOfThreads_ui = p.numberOfThreads_ui := by
  unfold worker_finish
  dsimp only
  split <;> rfl

theorem step_thread_count (p p1 : Pool) (a : Action) (hs : step p a = some p1) :
    p1.numberOfThreads_ui = p.numberOfThreads_ui := by
  unfold step at hs
  by_cases hterm : p.terminated = true
  · simp [hterm] at hs
  · rw [if_neg hterm] at hs
    cases a with
    | submit args body =>
      simp only [Option.some.injEq] at hs
      rw [← hs]
      exact push_task_thread_count p true args body
    | push args body =>
      simp only [Option.some.injEq] at hs
      rw [← hs]
      exact push_task_thread_count p false args body
    | worker_enter w =>
      dsimp only at hs
      split at hs
      · simp only [Option.some.injEq] at hs
        rw [← hs]
        exact worker_wake_thread_count { p with thread_is_waiting_at_cv_b := true }
      · simp at hs
    | worker_wake w =>
      dsimp only at hs
      split at hs
      · simp only [Option.some.injEq] at hs
        rw [← hs]
        exact worker_wake_thread_count p
      · simp at hs
    | worker_return w =>
      dsimp only at hs
      split at hs
      · rename_i item hx
        have hrun := run_task_thread_count p item
        split at hs
        · rename_i p2 t hr
          rw [hr] at hrun
          simp only [Option.some.injEq] at hs
          rw [← hs]
          exact hrun
        · rename_i p2 hr
          rw [hr] at hrun
          simp only [Option.some.injEq] at hs
          rw [← hs]
          exact (worker_finish_thread_count p2).trans hrun
      · simp at hs
    | drain_enter =>
      simp only [Option.some.injEq] at hs
      rw [← hs]
      unfold drain_enter
      dsimp only
      split <;> rfl
    | drain_wake =>
      dsimp only at hs
      split at hs
      · simp at hs
      · simp only [Option.some.injEq] at hs
        rw [← hs]
        unfold drain_wake
        split <;> rfl
    | kill =>
      simp only [Option.some.injEq] at hs
      rw [← hs]
      rfl

/-- The thread count of a pool never changes: it is the count the constructor stored. -/
theorem reachable_thread_count (N : Nat) (p : Pool) (h : Reachable N p) :
    p.numberOfThreads_ui = N % UINT_MOD := by
  induction h with
  | start => rfl
  | next a _ hs ih => rw [step_thread_count _ _ a hs, ih]

/-- C3: a loop request whose range is invalid (`start < 0`, `end < start`, or index types
that differ or are not integral) makes `submit_loop_task` and `push_loop` raise
`std::invalid_argument` and leaves the pool exactly as it was, so nothing is enqueued and no
handle is produced. On every state of a pool constructed with `N` threads
(`1 ≤ N`, an `unsigned int`), a request with `0 ≤ start ≤ end` of one integral type does not
raise `std::invalid_argument`, whatever its block count; on any pool state at all this holds
for a block count of at least 1. -/
theorem invalid_range_rejected (p : Pool) (S E : IndexType) (startIndex endIndex : Int)
    (B : Nat) (func : Nat → Nat → Outcome) :
    ((S ≠ E ∨ S.is_integral = false ∨ startIndex < 0 ∨ endIndex < startIndex) →
      submit_loop_task p S E startIndex endIndex B func
        = (Except.error Error.invalid_argument, p) ∧
      push_loop p S E startIndex endIndex B func
        = (Except.error Error.invalid_argument, p)) ∧
    (∀ N, 1 ≤ N → N < UINT_MOD → Reachable N p →
      S = E → S.is_integral = true → 0 ≤ startIndex → startIndex ≤ endIndex →
      (submit_loop_task p S E startIndex endIndex B func).1
        ≠ Except.error Error.invalid_argument ∧
      (push_loop p S E startIndex endIndex B func).1 ≠ Except.error Error.invalid_argument) ∧
    (1 ≤ B →
      S = E → S.is_integral = true → 0 ≤ startIndex → startIndex ≤ endIndex →
      (submit_loop_task p S E startIndex endIndex B func).1
        ≠ Except.error Error.invalid_argument ∧
      (push_loop p S E startIndex endIndex B func).1 ≠ Except.error Error.invalid_argument) := by
  have hmain : 1 ≤ effective_blocks p B →
      S = E → S.is_integral = true → 0 ≤ startIndex → startIndex ≤ endIndex →
      (submit_loop_task p S E startIndex endIndex B func).1
        ≠ Except.error Error.invalid_argument ∧
      (push_loop p S E startIndex endIndex B func).1 ≠ Except.error Error.invalid_argument := by
    intro heff hSE hS h0 hle
    subst hSE
    have hne := get_loops_per_block_valid S startIndex endIndex (effective_blocks p B) hS h0
      hle heff
    cases hg : get_loops_per_block S S startIndex endIndex (effective_blocks p B) with
    | error e =>
      rw [hg] at hne
      constructor
      · simp only [submit_loop_task, hg]
        exact hne
      · simp only [push_loop, hg]
        intro h
        cases e
        · exact hne rfl
        · cases h
    | ok sizes =>
      constructor
      · simp only [submit_loop_task, hg]
        intro h
        cases h
      · simp only [push_loop, hg]
        intro h
        cases h
  refine ⟨?_, ?_, ?_⟩
  · intro h
    have herr := get_loops_per_block_invalid S E startIndex endIndex (effective_blocks p B) h
    constructor
    · simp only [submit_loop_task, herr]
    · simp only [push_loop, herr]
  · intro N hN1 hN2 hreach
    have hcount := reachable_thread_count N p hreach
    rw [Nat.mod_eq_of_lt hN2] at hcount
    apply hmain
    unfold effective_blocks
    by_cases hb : B > 0
    · rw [if_pos hb]
      omega
    · rw [if_neg hb]
      omega
  · intro hB
    apply hmain
    unfold effective_blocks
    rw [if_pos (by omega)]
    exact hB

/-- Witness of C3: the request `(-1, 10)` on a pool with one queued item is rejected and the
pool is unchanged; so is a request with index types `int` and `long`; the request `(0, 10)`
with block count 0 on the constructed pool of four threads is not rejected. -/
theorem invalid_range_rejected_witness :
    (submit_loop_task (push_task (init 4) false [] Outcome.no_value) IndexType.int_t
        IndexType.int_t (-1) 10 3 (fun _ _ => Outcome.no_value)
      = (Except.error Error.invalid_argument, push_task (init 4) false [] Outcome.no_value)) ∧
    (submit_loop_task (init 4) IndexType.int_t IndexType.long_t 0 10 3
        (fun _ _ => Outcome.no_value)
      = (Except.error Error.invalid_argument, init 4)) ∧
    (1 ≤ 4 ∧ 4 < UINT_MOD ∧ Reachable 4 (init 4)) ∧
    (submit_loop_task (init 4) IndexType.int_t IndexType.int_t 0 10 0
        (fun _ _ => Outcome.no_value)).1 ≠ Except.error Error.invalid_argument ∧
    (submit_loop_task (init 4) IndexType.int_t IndexType.int_t 0 10 0
        (fun _ _ => Outcome.no_value)).1 = Except.ok [0, 1, 2, 3] :=
  ⟨((invalid_range_rejected (push_task (init 4) false [] Outcome.no_value) IndexType.int_t
        IndexType.int_t (-1) 10 3 (fun _ _ => Outcome.no_value)).1
      (Or.inr (Or.inr (Or.inl (by decide))))).1,
    ((invalid_range_rejected (init 4) IndexType.int_t IndexType.long_t 0 10 3
        (fun _ _ => Outcome.no_value)).1 (Or.inl (by decide))).1,
    ⟨by decide, by decide, Reachable.start⟩,
    ((invalid_range_rejected (init 4) IndexType.int_t IndexType.int_t 0 10 0
        (fun _ _ => Outcome.no_value)).2.1 4 (by decide) (by decide) Reachable.start rfl
      (by decide) (by decide) (by decide)).1,
    by rfl⟩

end ThreadManager
